import Mathlib

/-!
# Verification of the emotion-gateway streaming client

A shallow embedding of `emotion_gateway_client` (protocol.py, encoders.py,
runner.py, config.py) together with proofs and refutations of the stated
properties of its specification.

Conventions:
* Python `bytes` chunks are modelled as `List Nat`.
* Python `dict` built from a pair sequence is modelled by `dictOfPairs`
  (insertion order of first occurrence, value of the last occurrence).
* JSON values are modelled by the inductive `Json`; `json.dumps(...,
  ensure_ascii=False)` is modelled by `serJson`/`dumps_message` and
  `json.loads` by `parseValue`/`loads`.  Numbers are restricted to integers
  (float formatting is out of scope).
* The asyncio tasks of runner.py are modelled by the event traces they
  produce (`Ev`); cross-task interleaving is abstracted away, only the
  per-task order and event membership are used in the statements.
-/

/-! ## Generic helpers: decimal digits and association lists -/

/-- Is `c` one of the ASCII digits `0`..`9`? -/
def isDigitChar (c : Char) : Bool := 48 ≤ c.toNat && c.toNat ≤ 57

/-- Lowercase hexadecimal digit for `n < 16`, as emitted by Python's
`json.dumps` in `\u00XX` escapes. -/
def hexChar (n : Nat) : Char :=
  if n < 10 then Char.ofNat (48 + n) else Char.ofNat (87 + n)

/-- Digits of `n` in decimal, most significant first, computed with a
structural fuel (any fuel above the digit count gives the full result). -/
def natToCharsAux : Nat → Nat → List Char
  | 0, _ => []
  | _ + 1, 0 => []
  | fuel + 1, n => natToCharsAux fuel (n / 10) ++ [Char.ofNat (48 + n % 10)]

/-- Decimal representation of a natural number, as produced by Python's
`str` on a nonnegative `int`. -/
def natToChars (n : Nat) : List Char :=
  if n = 0 then ['0'] else natToCharsAux (n + 1) n

/-- Decimal representation of an integer, as produced by Python's `str`. -/
def intToChars (i : Int) : List Char :=
  if i < 0 then '-' :: natToChars i.natAbs else natToChars i.toNat

/-- First-match lookup in an association list (Python `dict.get` on a dict
whose insertion order is the list order). -/
def alookup {α : Type} : List (String × α) → String → Option α
  | [], _ => none
  | (k, v) :: rest, key => if k = key then some v else alookup rest key

/-- Python `d[k] = v` on a dict represented as an insertion-ordered
association list: replace the value in place if the key exists, else append. -/
def dictInsert {α : Type} : List (String × α) → String → α → List (String × α)
  | [], k, v => [(k, v)]
  | (k0, v0) :: rest, k, v =>
    if k0 = k then (k0, v) :: rest else (k0, v0) :: dictInsert rest k v

/-- Python `dict(pairs)`: fold the pairs into an insertion-ordered dict. -/
def dictOfPairs {α : Type} (pairs : List (String × α)) : List (String × α) :=
  pairs.foldl (fun acc kv => dictInsert acc kv.1 kv.2) []

/-! ## JSON values (protocol.py `dumps_message`, runner.py `json.loads`) -/

/-- JSON values exchanged on the wire.  Objects keep the key insertion
order of the originating Python dict. -/
inductive Json where
  | null : Json
  | bool (b : Bool) : Json
  | num (n : Int) : Json
  | str (s : String) : Json
  | arr (xs : List Json) : Json
  | obj (kvs : List (String × Json)) : Json

/-- No string occurs twice in the list. -/
def noDupKeys : List String → Bool
  | [] => true
  | k :: ks => !(ks.contains k) && noDupKeys ks

mutual
/-- Do all objects inside the value have pairwise distinct keys?  Every
value serialized from a Python object satisfies this, since Python dicts
cannot hold duplicate keys. -/
def keysOk : Json → Bool
  | .null => true
  | .bool _ => true
  | .num _ => true
  | .str _ => true
  | .arr xs => keysOkArr xs
  | .obj kvs => noDupKeys (kvs.map Prod.fst) && keysOkFields kvs

/-- `keysOk` on every element of an array. -/
def keysOkArr : List Json → Bool
  | [] => true
  | x :: rest => keysOk x && keysOkArr rest

/-- `keysOk` on every value of an object. -/
def keysOkFields : List (String × Json) → Bool
  | [] => true
  | kv :: rest => keysOk kv.2 && keysOkFields rest
end

/-- The escape sequence `json.dumps(..., ensure_ascii=False)` emits for one
character: `\"`, `\\`, the short control escapes, `\u00XX` for the other
control characters, and everything else verbatim. -/
def jescChar (c : Char) : List Char :=
  if c = '"' then ['\\', '"']
  else if c = '\\' then ['\\', '\\']
  else if c = '\n' then ['\\', 'n']
  else if c = '\t' then ['\\', 't']
  else if c = '\r' then ['\\', 'r']
  else if c = '\x08' then ['\\', 'b']
  else if c = '\x0c' then ['\\', 'f']
  else if c.toNat < 32 then ['\\', 'u', '0', '0', hexChar (c.toNat / 16), hexChar (c.toNat % 16)]
  else [c]

/-- Escape a whole string body. -/
def jescList : List Char → List Char
  | [] => []
  | c :: cs => jescChar c ++ jescList cs

/-- Opening brace character (written numerically). -/
def lbrace : Char := Char.ofNat 123

/-- Closing brace character (written numerically). -/
def rbrace : Char := Char.ofNat 125

mutual
/-- Serialization of a JSON value, following `json.dumps` with its default
separators `", "` and `": "` and `ensure_ascii=False`. -/
def serJson : Json → List Char
  | .null => "null".data
  | .bool b => (if b then "true" else "false").data
  | .num i => intToChars i
  | .str s => '"' :: (jescList s.data ++ ['"'])
  | .arr [] => ['[', ']']
  | .arr (x :: rest) => '[' :: (serArr x rest ++ [']'])
  | .obj [] => [lbrace, rbrace]
  | .obj (kv :: rest) => lbrace :: (serFields kv rest ++ [rbrace])
termination_by j => sizeOf j
decreasing_by all_goals (simp_wf; try omega)

/-- Comma-separated serialization of a nonempty run of array elements. -/
def serArr : Json → List Json → List Char
  | x, [] => serJson x
  | x, y :: rest => serJson x ++ [',', ' '] ++ serArr y rest
termination_by x rest => sizeOf x + sizeOf rest
decreasing_by all_goals (simp_wf; try omega)

/-- Comma-separated serialization of a nonempty run of object fields. -/
def serFields : String × Json → List (String × Json) → List Char
  | (k, v), [] => '"' :: (jescList k.data ++ ['"', ':', ' ']) ++ serJson v
  | (k, v), kv2 :: rest =>
    ('"' :: (jescList k.data ++ ['"', ':', ' ']) ++ serJson v) ++ [',', ' '] ++ serFields kv2 rest
termination_by kv rest => sizeOf kv + sizeOf rest
decreasing_by all_goals (simp_wf; try omega)
end

/-- `json.dumps({"message_type": message_type, "payload": payload},
ensure_ascii=False)` — protocol.py `dumps_message`. -/
def dumps_message (message_type : String) (payload : Json) : String :=
  ⟨serJson (.obj [("message_type", .str message_type), ("payload", payload)])⟩

/-! ### A recursive-descent parser for `json.loads` -/

/-- JSON whitespace. -/
def jws (c : Char) : Bool := c = ' ' || c = '\t' || c = '\n' || c = '\r'

/-- Drop leading JSON whitespace. -/
def skipWsChars : List Char → List Char
  | [] => []
  | c :: cs => if jws c then skipWsChars cs else c :: cs

/-- Value of one hexadecimal digit character. -/
def parseHexDigit (c : Char) : Option Nat :=
  if 48 ≤ c.toNat && c.toNat ≤ 57 then some (c.toNat - 48)
  else if 97 ≤ c.toNat && c.toNat ≤ 102 then some (c.toNat - 87)
  else if 65 ≤ c.toNat && c.toNat ≤ 70 then some (c.toNat - 55)
  else none

/-- Accumulate a maximal run of decimal digits. -/
def parseDigitsAux (acc : Nat) : List Char → Nat × List Char
  | [] => (acc, [])
  | c :: cs =>
    if isDigitChar c then parseDigitsAux (acc * 10 + (c.toNat - 48)) cs else (acc, c :: cs)

/-- Parse a nonempty maximal run of decimal digits. -/
def parseDigits : List Char → Option (Nat × List Char)
  | [] => none
  | c :: cs =>
    if isDigitChar c then some (parseDigitsAux (c.toNat - 48) cs) else none

/-- The single-character escapes accepted by `json.loads`. -/
def unescapeChar (c : Char) : Option Char :=
  if c = '"' then some '"'
  else if c = '\\' then some '\\'
  else if c = '/' then some '/'
  else if c = 'b' then some '\x08'
  else if c = 'f' then some '\x0c'
  else if c = 'n' then some '\n'
  else if c = 'r' then some '\r'
  else if c = 't' then some '\t'
  else none

/-- Parse a JSON string body up to (and consuming) the closing quote.  The
pattern order mirrors `json.loads`: closing quote, `\uXXXX` escape, other
backslash escapes, then verbatim characters. -/
def parseStringBody : List Char → Option (List Char × List Char)
  | [] => none
  | '"' :: cs => some ([], cs)
  | '\\' :: 'u' :: h1 :: h2 :: h3 :: h4 :: cs3 =>
    match parseHexDigit h1, parseHexDigit h2, parseHexDigit h3, parseHexDigit h4 with
    | some a, some b, some c3, some d =>
      (parseStringBody cs3).map
        (fun p => (Char.ofNat (((a * 16 + b) * 16 + c3) * 16 + d) :: p.1, p.2))
    | _, _, _, _ => none
  | '\\' :: e :: cs2 =>
    match unescapeChar e with
    | some ch => (parseStringBody cs2).map (fun p => (ch :: p.1, p.2))
    | none => none
  | ['\\'] => none
  | c :: cs => (parseStringBody cs).map (fun p => (c :: p.1, p.2))

mutual
/-- Recursive-descent parser for a JSON value, with an explicit call-depth
fuel.  Objects are built with Python-dict semantics via `dictOfPairs`. -/
def parseValue : Nat → List Char → Option (Json × List Char)
  | 0, _ => none
  | fuel + 1, s =>
    match skipWsChars s with
    | [] => none
    | c :: cs =>
      if c = 'n' then
        match cs with
        | 'u' :: 'l' :: 'l' :: rest => some (.null, rest)
        | _ => none
      else if c = 't' then
        match cs with
        | 'r' :: 'u' :: 'e' :: rest => some (.bool true, rest)
        | _ => none
      else if c = 'f' then
        match cs with
        | 'a' :: 'l' :: 's' :: 'e' :: rest => some (.bool false, rest)
        | _ => none
      else if c = '"' then
        (parseStringBody cs).map (fun p => (.str ⟨p.1⟩, p.2))
      else if c = '-' then
        (parseDigits cs).map (fun p => (.num (-(p.1 : Int)), p.2))
      else if isDigitChar c then
        (parseDigits (c :: cs)).map (fun p => (.num (p.1 : Int), p.2))
      else if c = '[' then
        match skipWsChars cs with
        | [] => none
        | c2 :: rest =>
          if c2 = ']' then some (.arr [], rest)
          else (parseArrItems fuel (c2 :: rest)).map (fun p => (.arr p.1, p.2))
      else if c = lbrace then
        match skipWsChars cs with
        | c2 :: rest =>
          if c2 = rbrace then some (.obj [], rest)
          else (parseObjItems fuel (c2 :: rest)).map (fun p => (.obj (dictOfPairs p.1), p.2))
        | [] => none
      else none

/-- Parse the remaining comma-separated elements of a nonempty array, up to
and consuming the closing bracket. -/
def parseArrItems : Nat → List Char → Option (List Json × List Char)
  | 0, _ => none
  | fuel + 1, s =>
    match parseValue fuel s with
    | none => none
    | some (v, rest) =>
      match skipWsChars rest with
      | ',' :: rest2 => (parseArrItems fuel rest2).map (fun p => (v :: p.1, p.2))
      | ']' :: rest2 => some ([v], rest2)
      | _ => none

/-- Parse the comma-separated fields of a nonempty object, up to and
consuming the closing brace. -/
def parseObjItems : Nat → List Char → Option (List (String × Json) × List Char)
  | 0, _ => none
  | fuel + 1, s =>
    match skipWsChars s with
    | '"' :: cs =>
      match parseStringBody cs with
      | none => none
      | some (k, rest) =>
        match skipWsChars rest with
        | ':' :: rest2 =>
          match parseValue fuel rest2 with
          | none => none
          | some (v, rest3) =>
            match skipWsChars rest3 with
            | ',' :: rest4 => (parseObjItems fuel rest4).map (fun p => ((⟨k⟩, v) :: p.1, p.2))
            | c5 :: rest5 =>
              if c5 = rbrace then some ([(⟨k⟩, v)], rest5) else none
            | [] => none
        | _ => none
    | _ => none
end

mutual
/-- Fuel sufficient for `parseValue` on the serialization of a value. -/
def jfuelV : Json → Nat
  | .null => 1
  | .bool _ => 1
  | .num _ => 1
  | .str _ => 1
  | .arr xs => 1 + jfuelA xs
  | .obj kvs => 1 + jfuelO kvs

/-- Fuel sufficient for `parseArrItems` on serialized array elements. -/
def jfuelA : List Json → Nat
  | [] => 0
  | x :: rest => 1 + max (jfuelV x) (jfuelA rest)

/-- Fuel sufficient for `parseObjItems` on serialized object fields. -/
def jfuelO : List (String × Json) → Nat
  | [] => 0
  | kv :: rest => 1 + max (jfuelV kv.2) (jfuelO rest)
end

/-- `json.loads`: parse one JSON value and require only whitespace after
it.  The fuel `s.length + 1` dominates the call depth of any parse. -/
def loads (s : String) : Option Json :=
  match parseValue (s.length + 1) s.data with
  | some (j, rest) => if skipWsChars rest = [] then some j else none
  | none => none

/-! ### Dict-style access and Python truthiness on JSON values -/

/-- Python `data.get(k)` on a parsed JSON object: `none` when `data` is not
a dict or the key is absent. -/
def jget (d : Json) (k : String) : Option Json :=
  match d with
  | .obj kvs => alookup kvs k
  | _ => none

/-- Python truthiness of a JSON value. -/
def jtruthy : Json → Bool
  | .null => false
  | .bool b => b
  | .num n => !(n == 0)
  | .str s => !(s == "")
  | .arr xs => !xs.isEmpty
  | .obj kvs => !kvs.isEmpty

/-- Truthiness of `d.get(k)`: an absent key behaves like `None`. -/
def jtruthyOpt : Option Json → Bool
  | none => false
  | some v => jtruthy v

/-- Python `d.get(k) is not None`: fails both when the key is absent and
when it maps to JSON `null`. -/
def jNotNone : Option Json → Bool
  | none => false
  | some .null => false
  | some _ => true

/-! ## protocol.py: connection target and timestamp -/

/-- The result of `urllib.parse.urlparse` on a URL, with the query string
already split into `parse_qsl(query, keep_blank_values=True)` pairs.
Percent-encoding of the individual keys and values is outside the model. -/
structure ParsedUrl where
  scheme : String
  netloc : String
  path : String
  fragment : String
  query : List (String × String)
deriving DecidableEq

/-- `build_gateway_ws_url` (protocol.py lines 16–26): append `token` as a
query parameter unless the token is falsy or the URL already carries a
truthy `token` parameter. -/
def build_gateway_ws_url (base_url : ParsedUrl) (token : Option String) : ParsedUrl :=
  if token.getD "" = "" then base_url
  else
    let query_items := dictOfPairs base_url.query
    if (alookup query_items "token").getD "" ≠ "" then base_url
    else { base_url with query := dictInsert query_items "token" (token.getD "") }

/-- `build_gateway_headers` (protocol.py lines 29–32). -/
def build_gateway_headers (token : Option String) (token_in_header : Bool) :
    Option (List (String × String)) :=
  if token.getD "" = "" || !token_in_header then none
  else some [("Authorization", "Bearer " ++ token.getD "")]

/-- The connection target built by `run_client` (runner.py lines 260–261):
the URL builder receives the token only when it is not placed in a header. -/
def connectTarget (ws_url : ParsedUrl) (api_token : Option String) (token_in_header : Bool) :
    ParsedUrl × Option (List (String × String)) :=
  (build_gateway_ws_url ws_url (if !token_in_header then api_token else none),
   build_gateway_headers api_token token_in_header)

/-- A UTC instant as carried by `datetime.now(timezone.utc)`: the
`microsecond` field holds the full sub-second precision. -/
structure UtcTime where
  year : Nat
  month : Nat
  day : Nat
  hour : Nat
  minute : Nat
  second : Nat
  microsecond : Nat
deriving DecidableEq

/-- `strftime` zero-padding of a numeric field to a given width. -/
def zfill (w : Nat) (n : Nat) : List Char :=
  List.replicate (w - (natToChars n).length) '0' ++ natToChars n

/-- `now_iso` (protocol.py lines 9–13): `strftime("%Y-%m-%dT%H:%M:%S.%fZ")`
on the given UTC instant.  `%f` is the microsecond field zero-padded to six
digits. -/
def now_iso (t : UtcTime) : String :=
  ⟨zfill 4 t.year ++ ['-'] ++ zfill 2 t.month ++ ['-'] ++ zfill 2 t.day ++ ['T'] ++
   zfill 2 t.hour ++ [':'] ++ zfill 2 t.minute ++ [':'] ++ zfill 2 t.second ++ ['.'] ++
   zfill 6 t.microsecond ++ ['Z']⟩

/-- The sub-second field of a rendered timestamp: the characters strictly
between the first `'.'` and the following `'Z'`. -/
def fractionField (s : String) : List Char :=
  (((s.data.dropWhile (fun c => !(c == '.'))).drop 1).takeWhile (fun c => !(c == 'Z')))

/-! ## encoders.py: AAC pipeline and H.264 boundary -/

/-- A byte string (PCM buffer, encoded packet, pipe chunk). -/
abbrev Packet := List Nat

/-- `AACEncoder.get_packets` (encoders.py lines 201–211) acting on the
contents of the handoff queue: pop without waiting until the queue is empty
or the `None` sentinel is met. -/
def get_packets : List (Option Packet) → List Packet
  | [] => []
  | none :: _ => []
  | some c :: rest => c :: get_packets rest

/-- State shared between the ffmpeg process and the `_drain_stdout` thread:
the chunks written to the process's stdout pipe and not yet read, whether
the process has exited, the handoff queue contents, and whether the drain
loop has terminated. -/
structure DrainState where
  buffered : List Packet
  exited : Bool
  outq : List (Option Packet)
  threadDone : Bool
deriving DecidableEq

/-- One atomic step of the process/drain-thread system. -/
inductive PipeEv where
  | procWrite (c : Packet)
  | procExit
  | drainIter
deriving DecidableEq

/-- Semantics of one step.  `drainIter` is one iteration of the
`_drain_stdout` loop (encoders.py lines 165–178): first check
`proc.poll()`; on exit break out and put the `None` sentinel; otherwise
read one available chunk, if any, onto the queue. -/
def drainStep (s : DrainState) : PipeEv → DrainState
  | .procWrite c => if s.exited then s else { s with buffered := s.buffered ++ [c] }
  | .procExit => { s with exited := true }
  | .drainIter =>
    if s.threadDone then s
    else if s.exited then { s with outq := s.outq ++ [none], threadDone := true }
    else
      match s.buffered with
      | c :: rest => { s with buffered := rest, outq := s.outq ++ [some c] }
      | [] => s

/-- Run the system from the initial state under a given interleaving. -/
def drainRun (evs : List PipeEv) : DrainState :=
  evs.foldl drainStep ⟨[], false, [], false⟩

/-- The observable state of an `AACEncoder` (encoders.py lines 92–211):
whether `self.proc` is set, the bytes written to the process stdin, the
handoff queue, and whether the reader thread was started. -/
structure AACEncoder where
  rate : Nat
  channels : Nat
  procLaunched : Bool
  stdinWrites : List Packet
  outq : List (Option Packet)
  readerStarted : Bool
deriving DecidableEq

/-- `AACEncoder.__init__`. -/
def AACEncoder.init (rate channels : Nat) : AACEncoder :=
  ⟨rate, channels, false, [], [], false⟩

/-- `AACEncoder.start` (encoders.py lines 102–150): if launching the ffmpeg
process fails (`FileNotFoundError` or any other exception), return `false`
with no process and no reader thread; otherwise record the process, start
the reader and return `true`. -/
def AACEncoder.start (e : AACEncoder) (launchOk : Bool) : AACEncoder × Bool :=
  if launchOk then ({ e with procLaunched := true, readerStarted := true }, true)
  else (e, false)

/-- `AACEncoder.encode` (encoders.py lines 192–199): a no-op when there is
no process; otherwise write the PCM bytes to stdin, swallowing any write
failure. -/
def AACEncoder.encode (e : AACEncoder) (pcm : Packet) (writeOk : Bool) : AACEncoder :=
  if !e.procLaunched then e
  else if writeOk then { e with stdinWrites := e.stdinWrites ++ [pcm] }
  else e

/-- `AACEncoder.get_packets` as a method: drain the queue, returning the
packets and the remaining queue. -/
def AACEncoder.drainNow (e : AACEncoder) : List Packet :=
  get_packets e.outq

/-- Outcome of one call into the underlying PyAV codec. -/
inductive CodecResult where
  | ok (pkts : List Packet)
  | exn
deriving DecidableEq

/-- The observable state of an `H264Encoder` (encoders.py lines 39–89):
whether `self.encoder`/`self._av` are available. -/
structure H264Encoder where
  codecAvailable : Bool
deriving DecidableEq

/-- `H264Encoder.encode` (encoders.py lines 71–81): empty list when the
codec is absent; otherwise return the packets of the underlying call, or an
empty list if that call raised. -/
def H264Encoder.encode (e : H264Encoder) (frameResult : CodecResult) : List Packet :=
  if !e.codecAvailable then []
  else
    match frameResult with
    | .ok pkts => pkts
    | .exn => []

/-- `H264Encoder.flush` (encoders.py lines 83–89): same containment for the
end-of-stream flush call. -/
def H264Encoder.flush (e : H264Encoder) (flushResult : CodecResult) : List Packet :=
  if !e.codecAvailable then []
  else
    match flushResult with
    | .ok pkts => pkts
    | .exn => []

/-! ## runner.py: producer loops, dispatcher and session shutdown -/

/-- The tasks `run_client` creates (runner.py lines 275–281). -/
inductive TaskName where
  | recvTask
  | audioTask
  | videoTask
  | vitalTask
deriving DecidableEq

/-- Observable events of the session: log lines, setting the shared stop
signal, sending one envelope (with its per-modality index, when the payload
carries one), and cancelling a task. -/
inductive Ev where
  | log (msg : String)
  | setStop
  | send (message_type : String) (index : Option Nat)
  | cancel (t : TaskName)
deriving DecidableEq

/-- The sends of `audio_sender`'s packet loop (runner.py lines 150–162):
one `audio` envelope per drained packet, `chunk_idx` incremented per
packet. -/
def audioPacketSends : List Packet → Nat → List Ev
  | [], _ => []
  | _ :: ps, i => .send "audio" (some i) :: audioPacketSends ps (i + 1)

/-- The sends of `audio_sender`'s main loop (runner.py lines 142–164):
`chunkPackets` lists, per loop iteration, the packets drained from the
encoder for that PCM chunk. -/
def audioLoopSends : List (List Packet) → Nat → List Ev
  | [], _ => []
  | chunk :: rest, i => audioPacketSends chunk i ++ audioLoopSends rest (i + chunk.length)

/-- Event trace of `audio_sender` (runner.py lines 111–174).  The three
flags are the capability checks, in the order the code makes them: pyaudio
importable, microphone opened, `AACEncoder.start()` succeeded.  Each early
return leaves only a log line; a full run appends `setStop` from the
`finally` block after the loop ends. -/
def audio_sender (pyaudioAvail micOpenOk ffmpegStartOk : Bool)
    (chunkPackets : List (List Packet)) : List Ev :=
  if !pyaudioAvail then [.log "skip: pyaudio missing"]
  else if !micOpenOk then [.log "skip: microphone open failed"]
  else if !ffmpegStartOk then [.log "skip: ffmpeg unavailable"]
  else .log "audio capture started" :: (audioLoopSends chunkPackets 0 ++ [.setStop])

/-- The sends for one video frame (runner.py lines 214–225): every packet
of the frame carries the same `frame_index`. -/
def videoFrameSends : List Packet → Nat → List Ev
  | [], _ => []
  | _ :: ps, i => .send "video" (some i) :: videoFrameSends ps i

/-- The sends of `video_sender`'s main loop (runner.py lines 207–228):
`frame_idx` is incremented once per captured frame. -/
def videoLoopSends : List (List Packet) → Nat → List Ev
  | [], _ => []
  | f :: rest, i => videoFrameSends f i ++ videoLoopSends rest (i + 1)

/-- The sends of `video_sender`'s teardown flush (runner.py lines 232–244):
one envelope per flushed packet, `frame_idx` incremented per packet. -/
def videoFlushSends : List Packet → Nat → List Ev
  | [], _ => []
  | _ :: ps, i => .send "video" (some i) :: videoFlushSends ps (i + 1)

/-- Event trace of `video_sender` (runner.py lines 177–245).  Flags are the
capability checks in code order: opencv/av importable, camera opened,
H.264 codec constructed.  A full run sends the main-loop packets, then the
`finally` block sets the stop signal and sends the flush packets. -/
def video_sender (depsAvail camOpenOk codecOk : Bool)
    (framePackets : List (List Packet)) (flushPackets : List Packet) : List Ev :=
  if !depsAvail then [.log "skip: opencv/av missing"]
  else if !camOpenOk then [.log "skip: camera unopenable"]
  else if !codecOk then [.log "skip: codec construction failed"]
  else .log "video capture started" ::
    (videoLoopSends framePackets 0 ++
      .setStop :: videoFlushSends flushPackets framePackets.length)

/-- Event trace of `vital_sender` (runner.py lines 96–108): `stopChecks`
lists the successive values of `stop_event.is_set()` observed at the top of
the loop; each `false` check is immediately followed by one `vital` send
with no intervening suspension point. -/
def vital_sender : List Bool → List Ev
  | [] => []
  | check :: rest => if check then [] else .send "vital" none :: vital_sender rest

/-- All tasks of a session with every modality enabled. -/
def allTasks : List TaskName :=
  [.recvTask, .audioTask, .videoTask, .vitalTask]

/-- The `finally` block of `run_client` (runner.py lines 292–296), entered
as soon as `asyncio.wait(tasks, return_when=FIRST_COMPLETED)` returns: set
the stop signal, then cancel every task. -/
def runClientShutdown : List Ev :=
  .setStop :: allTasks.map .cancel

/-- Session trace of `run_client` (runner.py lines 274–296) for a run in
which at least one producer task completes (for instance by returning early
on a missing capability): `asyncio.wait` with `FIRST_COMPLETED` then
returns and the `finally` block runs.  Cross-task interleaving is abstracted
by concatenating the per-task traces; the claims about this trace only use
membership of events, which is interleaving-invariant. -/
def run_client_first_completion_trace
    (pyaudioAvail micOpenOk ffmpegStartOk depsAvail camOpenOk codecOk : Bool)
    (audioChunks videoFrames : List (List Packet)) (videoFlush : List Packet)
    (vitalChecks : List Bool) : List Ev :=
  audio_sender pyaudioAvail micOpenOk ffmpegStartOk audioChunks ++
  video_sender depsAvail camOpenOk codecOk videoFrames videoFlush ++
  vital_sender vitalChecks ++
  runClientShutdown

/-- The per-modality indices carried by the sends of a trace, in order. -/
def sendIndices (message_type : String) (tr : List Ev) : List Nat :=
  tr.filterMap fun e =>
    match e with
    | .send m (some i) => if m = message_type then some i else none
    | _ => none

/-- Is the event a send? -/
def isSend : Ev → Bool
  | .send _ _ => true
  | _ => false

/-- Is the event the stop-signal set? -/
def isStop : Ev → Bool
  | .setStop => true
  | _ => false

/-- Does some send occur strictly after some `setStop` in the trace? -/
def sendAfterStop : List Ev → Bool
  | [] => false
  | .setStop :: rest => rest.any isSend || sendAfterStop rest
  | _ :: rest => sendAfterStop rest

/-- The events strictly after the first `setStop` of the trace. -/
def eventsAfterStop (tr : List Ev) : List Ev :=
  (tr.dropWhile (fun e => !isStop e)).drop 1

/-! ### The receive dispatcher (runner.py `recv_loop`, lines 40–93) -/

/-- The caller-visible events `recv_loop` emits (its `print` calls), one
constructor per distinct classification. -/
inductive RecvEvent where
  | rawData (d : Json)
  | gatewayError (requestId : Option Json) (code : Json) (msg : Option Json)
  | deltaChunk (requestId : Option Json) (seq : Option Json) (isFinal : Bool) (delta : Json)
  | emotionResult (r : Json)
  | chunkOpaque (requestId : Option Json) (seq : Option Json) (isFinal : Bool) (payload : Option Json)
  | usage (requestId : Option Json) (tokenUsage timeUsage : Option Json)
  | generic (d : Json)

/-- Is the event a streamed-delta event? -/
def isDeltaEvt : RecvEvent → Bool
  | .deltaChunk _ _ _ _ => true
  | _ => false

/-- Is the event a final-result event? -/
def isFinalEvt : RecvEvent → Bool
  | .emotionResult _ => true
  | _ => false

/-- Python `v == s` for a maybe-absent JSON value and a string literal. -/
def isStrVal (o : Option Json) (s : String) : Bool :=
  match o with
  | some (.str t) => t == s
  | _ => false

/-- Python `v is None` for a `dict.get` result: absent key or JSON null. -/
def isNoneVal : Option Json → Bool
  | none => true
  | some .null => true
  | some _ => false

/-- Classification of one parsed inbound message by `recv_loop` (runner.py
lines 49–87), emitting the list of events its body prints, in order. -/
def dispatchMsg (data : Json) : List RecvEvent :=
  match data with
  | .obj _ =>
    if jtruthyOpt (jget data "code") then
      [.gatewayError (jget data "request_id") ((jget data "code").getD .null) (jget data "msg")]
    else if isStrVal (jget data "message_type") "ack"
        || isStrVal (jget data "message_type") "pong" then []
    else if isStrVal (jget data "message_type") "chunk" then
      let requestId := jget data "request_id"
      let seq := jget data "seq"
      let isFinal := jtruthyOpt (jget data "is_final")
      let payload := jget data "payload"
      (match payload with
       | some (.obj pkvs) =>
         (if jtruthyOpt (alookup pkvs "delta") then
            [.deltaChunk requestId seq isFinal ((alookup pkvs "delta").getD .null)]
          else []) ++
         (if isFinal && jNotNone (alookup pkvs "emotion_result") then
            [.emotionResult ((alookup pkvs "emotion_result").getD .null)]
          else [])
       | _ =>
         if isNoneVal payload || isStrVal payload "" then []
         else [.chunkOpaque requestId seq isFinal payload]) ++
      (if isFinal && (jNotNone (jget data "token_usage") || jNotNone (jget data "time_usage")) then
        [.usage requestId (jget data "token_usage") (jget data "time_usage")]
       else [])
    else [.generic data]
  | _ => [.rawData data]

/-- Does the remaining input not start with a decimal digit?  (Guards the
maximal-munch number parser against running into the tail.) -/
def digitFree : List Char → Bool
  | [] => true
  | c :: _ => !isDigitChar c

/-! ## Theorems.  First, arithmetic/character helper lemmas. -/

/-- ASCII code of the rendered digit character. -/
theorem char_digit_toNat {d : Nat} (hd : d < 10) : (Char.ofNat (48 + d)).toNat = 48 + d := by
  interval_cases d <;> decide

/-- Characters produced by the fueled digit renderer are digits. -/
theorem natToCharsAux_digits : ∀ (fuel n : Nat), ∀ c ∈ natToCharsAux fuel n,
    isDigitChar c = true := by
  intro fuel
  induction fuel with
  | zero => intro n c hc; simp [natToCharsAux] at hc
  | succ fuel ih =>
    intro n c hc
    match n with
    | 0 => simp [natToCharsAux] at hc
    | n + 1 =>
      simp only [natToCharsAux, List.mem_append, List.mem_singleton] at hc
      rcases hc with hc | hc
      · exact ih _ c hc
      · subst hc
        have hd : (n + 1) % 10 < 10 := Nat.mod_lt _ (by norm_num)
        simp [isDigitChar, char_digit_toNat hd]
        omega

/-- Digits of a natural number rendered in decimal are digit characters. -/
theorem natToChars_digits (n : Nat) : ∀ c ∈ natToChars n, isDigitChar c = true := by
  intro c hc
  unfold natToChars at hc
  split at hc
  · simp at hc
    subst hc
    decide
  · exact natToCharsAux_digits _ _ c hc

/-- `natToChars` is never empty. -/
theorem natToChars_ne_nil (n : Nat) : natToChars n ≠ [] := by
  unfold natToChars
  split
  · simp
  · match n, (by assumption : ¬n = 0) with
    | n + 1, _ => simp [natToCharsAux]

/-- With enough fuel, folding the rendered digits recovers the number. -/
theorem foldl_natToCharsAux : ∀ (fuel n : Nat), n < 10 ^ fuel →
    List.foldl (fun a c => a * 10 + (c.toNat - 48)) 0 (natToCharsAux fuel n) = n := by
  intro fuel
  induction fuel with
  | zero => intro n hn; interval_cases n; rfl
  | succ fuel ih =>
    intro n hn
    match n with
    | 0 => rfl
    | n + 1 =>
      have hdiv : (n + 1) / 10 < 10 ^ fuel := by
        rw [Nat.div_lt_iff_lt_mul (by norm_num)]
        calc n + 1 < 10 ^ (fuel + 1) := hn
        _ = 10 ^ fuel * 10 := by ring
      simp only [natToCharsAux, List.foldl_append, List.foldl_cons, List.foldl_nil]
      rw [ih _ hdiv]
      have hd : (n + 1) % 10 < 10 := Nat.mod_lt _ (by norm_num)
      rw [char_digit_toNat hd]
      omega

/-- The big-endian digit fold recovers the rendered number. -/
theorem foldl_natToChars (n : Nat) :
    List.foldl (fun a c => a * 10 + (c.toNat - 48)) 0 (natToChars n) = n := by
  unfold natToChars
  split
  · simp_all
  · exact foldl_natToCharsAux (n + 1) n
      (lt_of_lt_of_le (Nat.lt_pow_self (by norm_num) n)
        (Nat.pow_le_pow_right (by norm_num) (by omega)))

/-- `parseDigitsAux` consumes exactly a run of digit characters and stops
at the first non-digit. -/
theorem parseDigitsAux_spec (ds : List Char) (hds : ∀ c ∈ ds, isDigitChar c = true) :
    ∀ acc rest, digitFree rest = true →
      parseDigitsAux acc (ds ++ rest) =
        (List.foldl (fun a c => a * 10 + (c.toNat - 48)) acc ds, rest) := by
  induction ds with
  | nil =>
    intro acc rest hrest
    match rest with
    | [] => rfl
    | c :: cs =>
      simp only [digitFree, Bool.not_eq_true'] at hrest
      simp [parseDigitsAux, hrest]
  | cons c cs ih =>
    intro acc rest hrest
    have hc : isDigitChar c = true := hds c (by simp)
    simp only [List.cons_append, parseDigitsAux, hc, if_true, List.foldl_cons]
    exact ih (fun x hx => hds x (by simp [hx])) _ rest hrest

/-- `parseDigits` recovers the rendered natural number and leaves the tail
untouched, provided the tail does not begin with a digit. -/
theorem parseDigits_natToChars (n : Nat) (rest : List Char) (hrest : digitFree rest = true) :
    parseDigits (natToChars n ++ rest) = some (n, rest) := by
  obtain ⟨c, cs, hsplit⟩ : ∃ c cs, natToChars n = c :: cs := by
    match h : natToChars n with
    | [] => exact absurd h (natToChars_ne_nil n)
    | c :: cs => exact ⟨c, cs, rfl⟩
  have hall := natToChars_digits n
  rw [hsplit] at hall ⊢
  have hc : isDigitChar c = true := hall c (by simp)
  simp only [List.cons_append, parseDigits, hc, if_true, Option.some.injEq]
  rw [parseDigitsAux_spec cs (fun x hx => hall x (by simp [hx])) _ rest hrest]
  have := foldl_natToChars n
  rw [hsplit] at this
  simp only [List.foldl_cons] at this
  have h0 : (0 : Nat) * 10 + (c.toNat - 48) = c.toNat - 48 := by omega
  rw [h0] at this
  simp [this]

/-- Dropping whitespace does nothing when the head is not whitespace. -/
theorem skipWsChars_not_ws {c : Char} (cs : List Char) (h : jws c = false) :
    skipWsChars (c :: cs) = c :: cs := by
  simp [skipWsChars, h]

/-- Digit characters are not JSON whitespace. -/
theorem jws_of_digit {c : Char} (h : isDigitChar c = true) : jws c = false := by
  simp only [jws, Bool.or_eq_false_iff, decide_eq_false_iff_not]
  refine ⟨⟨⟨?_, ?_⟩, ?_⟩, ?_⟩ <;> (intro hh; subst hh; exact absurd h (by decide))

/-! ### Association-list (Python dict) lemmas -/

/-- Updating an absent key appends it. -/
theorem dictInsert_of_absent {α : Type} (m : List (String × α)) (k : String) (v : α)
    (h : alookup m k = none) : dictInsert m k v = m ++ [(k, v)] := by
  induction m with
  | nil => rfl
  | cons kv rest ih =>
    obtain ⟨k0, v0⟩ := kv
    simp only [alookup] at h
    by_cases hk : k0 = k
    · simp [hk] at h
    · simp only [dictInsert, hk, if_false, List.cons_append, List.cons.injEq, true_and]
      exact ih (by simpa [hk] using h)

/-- Lookup distributes over append. -/
theorem alookup_append {α : Type} (m1 m2 : List (String × α)) (k : String) :
    alookup (m1 ++ m2) k = ((alookup m1 k).rec (alookup m2 k) (fun v => some v)) := by
  induction m1 with
  | nil => rfl
  | cons kv rest ih =>
    obtain ⟨k0, v0⟩ := kv
    by_cases hk : k0 = k
    · simp [alookup, hk]
    · simpa [alookup, hk] using ih

/-- `dict(pairs)` is the identity on a pair list with distinct keys. -/
theorem dictOfPairs_nodup {α : Type} (kvs : List (String × α))
    (h : noDupKeys (kvs.map Prod.fst) = true) : dictOfPairs kvs = kvs := by
  suffices hgen : ∀ (l : List (String × α)) (acc : List (String × α)),
      noDupKeys (l.map Prod.fst) = true →
      (∀ k ∈ l.map Prod.fst, alookup acc k = none) →
      List.foldl (fun acc kv => dictInsert acc kv.1 kv.2) acc l = acc ++ l by
    simpa using hgen kvs [] h (by simp [alookup])
  intro l
  induction l with
  | nil => intro acc _ _; simp
  | cons kv rest ih =>
    intro acc hnodup hfresh
    obtain ⟨k, v⟩ := kv
    simp only [List.map_cons, noDupKeys, Bool.and_eq_true, Bool.not_eq_true'] at hnodup
    simp only [List.foldl_cons]
    rw [dictInsert_of_absent acc k v (hfresh k (by simp))]
    rw [ih (acc ++ [(k, v)]) hnodup.2 ?fresh]
    · simp
    case fresh =>
      intro k2 hk2
      rw [alookup_append, hfresh k2 (by simp [hk2])]
      have hk2k : k2 ≠ k := by
        intro hh
        subst hh
        exact absurd hk2 (by simpa using hnodup.1)
      simp [alookup, Ne.symm hk2k]

/-! ### String-body round trip -/

/-- A hex digit emitted by the serializer parses back to its value. -/
theorem parseHexDigit_hexChar : ∀ n, n < 16 → parseHexDigit (hexChar n) = some n := by
  decide

/-- Step: a verbatim character. -/
theorem psb_plain {c : Char} (hq : c ≠ '"') (hb : c ≠ '\\') (X : List Char) :
    parseStringBody (c :: X) = (parseStringBody X).map (fun p => (c :: p.1, p.2)) := by
  simp [parseStringBody, hq, hb]

/-- Parsing inverts escaping: the body parser consumes exactly the escaped
characters and the closing quote. -/
theorem parseStringBody_jesc (cs : List Char) : ∀ rest,
    parseStringBody (jescList cs ++ '"' :: rest) = some (cs, rest) := by
  induction cs with
  | nil => intro rest; rfl
  | cons c cs ih =>
    intro rest
    simp only [jescList]
    rw [List.append_assoc]
    by_cases h1 : c = '"'
    · subst h1
      rw [show parseStringBody (jescChar '"' ++ (jescList cs ++ '"' :: rest))
            = (parseStringBody (jescList cs ++ '"' :: rest)).map
                (fun p => ('"' :: p.1, p.2)) from rfl, ih rest]
      rfl
    by_cases h2 : c = '\\'
    · subst h2
      rw [show parseStringBody (jescChar '\\' ++ (jescList cs ++ '"' :: rest))
            = (parseStringBody (jescList cs ++ '"' :: rest)).map
                (fun p => ('\\' :: p.1, p.2)) from rfl, ih rest]
      rfl
    by_cases h3 : c = '\n'
    · subst h3
      rw [show parseStringBody (jescChar '\n' ++ (jescList cs ++ '"' :: rest))
            = (parseStringBody (jescList cs ++ '"' :: rest)).map
                (fun p => ('\n' :: p.1, p.2)) from rfl, ih rest]
      rfl
    by_cases h4 : c = '\t'
    · subst h4
      rw [show parseStringBody (jescChar '\t' ++ (jescList cs ++ '"' :: rest))
            = (parseStringBody (jescList cs ++ '"' :: rest)).map
                (fun p => ('\t' :: p.1, p.2)) from rfl, ih rest]
      rfl
    by_cases h5 : c = '\r'
    · subst h5
      rw [show parseStringBody (jescChar '\r' ++ (jescList cs ++ '"' :: rest))
            = (parseStringBody (jescList cs ++ '"' :: rest)).map
                (fun p => ('\r' :: p.1, p.2)) from rfl, ih rest]
      rfl
    by_cases h6 : c = '\x08'
    · subst h6
      rw [show parseStringBody (jescChar '\x08' ++ (jescList cs ++ '"' :: rest))
            = (parseStringBody (jescList cs ++ '"' :: rest)).map
                (fun p => ('\x08' :: p.1, p.2)) from rfl, ih rest]
      rfl
    by_cases h7 : c = '\x0c'
    · subst h7
      rw [show parseStringBody (jescChar '\x0c' ++ (jescList cs ++ '"' :: rest))
            = (parseStringBody (jescList cs ++ '"' :: rest)).map
                (fun p => ('\x0c' :: p.1, p.2)) from rfl, ih rest]
      rfl
    by_cases h8 : c.toNat < 32
    · have hesc : jescChar c =
          ['\\', 'u', '0', '0', hexChar (c.toNat / 16), hexChar (c.toNat % 16)] := by
        simp [jescChar, h1, h2, h3, h4, h5, h6, h7, h8]
      rw [hesc]
      rw [show (['\\', 'u', '0', '0', hexChar (c.toNat / 16), hexChar (c.toNat % 16)] : List Char)
            ++ (jescList cs ++ '"' :: rest)
          = '\\' :: 'u' :: '0' :: '0' :: hexChar (c.toNat / 16) :: hexChar (c.toNat % 16) ::
            (jescList cs ++ '"' :: rest) from rfl]
      simp only [parseStringBody]
      rw [show parseHexDigit '0' = some 0 from rfl,
        parseHexDigit_hexChar _ (by omega : c.toNat / 16 < 16),
        parseHexDigit_hexChar _ (by omega : c.toNat % 16 < 16)]
      simp only [ih rest, Option.map_some]
      have hval : ((0 * 16 + 0) * 16 + c.toNat / 16) * 16 + c.toNat % 16 = c.toNat := by omega
      rw [hval, Char.ofNat_toNat]
      rfl
    · have hesc : jescChar c = [c] := by
        simp [jescChar, h1, h2, h3, h4, h5, h6, h7, h8]
      rw [hesc]
      rw [show ([c] : List Char) ++ (jescList cs ++ '"' :: rest)
            = c :: (jescList cs ++ '"' :: rest) from rfl]
      rw [psb_plain h1 h2, ih rest]
      rfl

/-! ### Parser/serializer round trip -/

/-- `jfuelV` is positive. -/
theorem jfuelV_pos (j : Json) : 1 ≤ jfuelV j := by
  cases j <;> simp [jfuelV]

/-- Leading JSON whitespace is transparent to `parseValue`. -/
theorem parseValue_cons_ws {c : Char} (hc : jws c = true) (fuel : Nat) (s : List Char) :
    parseValue fuel (c :: s) = parseValue fuel s := by
  match fuel with
  | 0 => rfl
  | fuel + 1 =>
    simp only [parseValue]
    rw [show skipWsChars (c :: s) = skipWsChars s by simp [skipWsChars, hc]]

/-- Leading JSON whitespace is transparent to `parseArrItems`. -/
theorem parseArrItems_cons_ws {c : Char} (hc : jws c = true) (fuel : Nat) (s : List Char) :
    parseArrItems fuel (c :: s) = parseArrItems fuel s := by
  match fuel with
  | 0 => rfl
  | fuel + 1 =>
    simp only [parseArrItems]
    rw [parseValue_cons_ws hc]

/-- Leading JSON whitespace is transparent to `parseObjItems`. -/
theorem parseObjItems_cons_ws {c : Char} (hc : jws c = true) (fuel : Nat) (s : List Char) :
    parseObjItems fuel (c :: s) = parseObjItems fuel s := by
  match fuel with
  | 0 => rfl
  | fuel + 1 =>
    simp only [parseObjItems]
    rw [show skipWsChars (c :: s) = skipWsChars s by simp [skipWsChars, hc]]

/-- The serialization of a value starts with a character that is neither
whitespace nor a closing bracket. -/
theorem serJson_head (j : Json) :
    ∃ c cs', serJson j = c :: cs' ∧ jws c = false ∧ c ≠ ']' := by
  cases j with
  | null => exact ⟨'n', ['u', 'l', 'l'], by simp only [serJson]; try decide, by decide, by decide⟩
  | bool b =>
    cases b with
    | true =>
      exact ⟨'t', ['r', 'u', 'e'], by simp only [serJson]; decide, by decide, by decide⟩
    | false =>
      exact ⟨'f', ['a', 'l', 's', 'e'], by simp only [serJson]; decide, by decide, by decide⟩
  | num i =>
    by_cases hi : i < 0
    · exact ⟨'-', natToChars i.natAbs, by simp [serJson, intToChars, hi], by decide, by decide⟩
    · obtain ⟨c, cs, hsplit⟩ : ∃ c cs, natToChars i.toNat = c :: cs := by
        match h : natToChars i.toNat with
        | [] => exact absurd h (natToChars_ne_nil _)
        | c :: cs => exact ⟨c, cs, rfl⟩
      have hc : isDigitChar c = true :=
        natToChars_digits i.toNat c (by rw [hsplit]; exact List.mem_cons_self c cs)
      refine ⟨c, cs, ?_, jws_of_digit hc, ?_⟩
      · rw [show serJson (Json.num i) = intToChars i by simp [serJson], intToChars, if_neg hi,
          hsplit]
      · intro hh
        subst hh
        exact absurd hc (by decide)
  | str s => exact ⟨'"', jescList s.data ++ ['"'], by simp [serJson], by decide, by decide⟩
  | arr xs =>
    cases xs with
    | nil => exact ⟨'[', [']'], by simp [serJson], by decide, by decide⟩
    | cons x rest =>
      exact ⟨'[', serArr x rest ++ [']'], by simp [serJson], by decide, by decide⟩
  | obj kvs =>
    cases kvs with
    | nil => exact ⟨lbrace, [rbrace], by simp [serJson], by decide, by decide⟩
    | cons kv rest =>
      exact ⟨lbrace, serFields kv rest ++ [rbrace], by simp [serJson], by decide, by decide⟩

/-- Step: `parseValue` on a digit-headed input parses a number. -/
theorem parseValue_digit {c : Char} (hc : isDigitChar c = true) (fuel : Nat) (cs : List Char) :
    parseValue (fuel + 1) (c :: cs) =
      (parseDigits (c :: cs)).map (fun p => (Json.num (p.1 : Int), p.2)) := by
  have hn : c ≠ 'n' := by intro hh; subst hh; exact absurd hc (by decide)
  have ht : c ≠ 't' := by intro hh; subst hh; exact absurd hc (by decide)
  have hf : c ≠ 'f' := by intro hh; subst hh; exact absurd hc (by decide)
  have hq : c ≠ '"' := by intro hh; subst hh; exact absurd hc (by decide)
  have hm : c ≠ '-' := by intro hh; subst hh; exact absurd hc (by decide)
  simp only [parseValue]
  rw [skipWsChars_not_ws cs (jws_of_digit hc)]
  simp [hn, ht, hf, hq, hm, hc]

/-- Step: `parseValue` after `'['` on a non-`']'` head parses the element
list. -/
theorem parseValue_lbracket {c : Char} (hws : jws c = false) (hne : c ≠ ']')
    (fuel : Nat) (W : List Char) :
    parseValue (fuel + 1) ('[' :: c :: W) =
      (parseArrItems fuel (c :: W)).map (fun p => (Json.arr p.1, p.2)) := by
  show (match skipWsChars (c :: W) with
        | [] => none
        | c2 :: rest =>
          if c2 = ']' then some (Json.arr [], rest)
          else (parseArrItems fuel (c2 :: rest)).map (fun p => (Json.arr p.1, p.2)))
      = (parseArrItems fuel (c :: W)).map (fun p => (Json.arr p.1, p.2))
  rw [skipWsChars_not_ws W hws]
  show (if c = ']' then some (Json.arr [], W)
        else (parseArrItems fuel (c :: W)).map (fun p => (Json.arr p.1, p.2)))
      = (parseArrItems fuel (c :: W)).map (fun p => (Json.arr p.1, p.2))
  rw [if_neg hne]

/-- Step: `parseValue` after `'{'` on a `'"'` head parses the field list. -/
theorem parseValue_lbrace_quote (fuel : Nat) (W : List Char) :
    parseValue (fuel + 1) (lbrace :: '"' :: W) =
      (parseObjItems fuel ('"' :: W)).map (fun p => (Json.obj (dictOfPairs p.1), p.2)) := rfl

/-- Step: one iteration of the field parser on a quote-headed input. -/
theorem parseObjItems_step (fuel : Nat) (B : List Char) :
    parseObjItems (fuel + 1) ('"' :: B) =
      (match parseStringBody B with
       | none => none
       | some (k, rest) =>
         match skipWsChars rest with
         | ':' :: rest2 =>
           (match parseValue fuel rest2 with
            | none => none
            | some (v, rest3) =>
              match skipWsChars rest3 with
              | ',' :: rest4 => (parseObjItems fuel rest4).map (fun p => ((⟨k⟩, v) :: p.1, p.2))
              | c5 :: rest5 =>
                if c5 = rbrace then some ([(⟨k⟩, v)], rest5) else none
              | [] => none)
         | _ => none) := rfl

/-- The joint round-trip statement for the three mutual parsers: with
enough fuel, each parser recovers exactly the serialized syntax and leaves
the tail untouched. -/
theorem parse_ser_all : ∀ fuel : Nat,
    (∀ j rest, keysOk j = true → jfuelV j ≤ fuel → digitFree rest = true →
      parseValue fuel (serJson j ++ rest) = some (j, rest)) ∧
    (∀ x xs rest, keysOk x = true → keysOkArr xs = true → jfuelA (x :: xs) ≤ fuel →
      parseArrItems fuel (serArr x xs ++ ']' :: rest) = some (x :: xs, rest)) ∧
    (∀ k v kvs rest, keysOk v = true → keysOkFields kvs = true →
      jfuelO ((k, v) :: kvs) ≤ fuel →
      parseObjItems fuel (serFields (k, v) kvs ++ rbrace :: rest) = some ((k, v) :: kvs, rest)) := by
  intro fuel
  induction fuel with
  | zero =>
    refine ⟨?_, ?_, ?_⟩
    · intro j rest _ hf _
      exact absurd hf (by have := jfuelV_pos j; omega)
    · intro x xs rest _ _ hf
      exact absurd hf (by simp [jfuelA])
    · intro k v kvs rest _ _ hf
      exact absurd hf (by simp [jfuelO])
  | succ fuel ih =>
    obtain ⟨ihV, ihA, ihO⟩ := ih
    refine ⟨?_, ?_, ?_⟩
    · intro j rest hk hf hrest
      cases j with
      | null =>
        rw [show serJson Json.null = ['n', 'u', 'l', 'l'] by simp only [serJson]; try decide]
        exact rfl
      | bool b =>
        cases b with
        | true =>
          rw [show serJson (Json.bool true) = ['t', 'r', 'u', 'e'] by
            simp only [serJson]; decide]
          exact rfl
        | false =>
          rw [show serJson (Json.bool false) = ['f', 'a', 'l', 's', 'e'] by
            simp only [serJson]; decide]
          exact rfl
      | num i =>
        by_cases hi : i < 0
        · rw [show serJson (Json.num i) = '-' :: natToChars i.natAbs by
              simp [serJson, intToChars, hi]]
          rw [show ('-' :: natToChars i.natAbs) ++ rest
                = '-' :: (natToChars i.natAbs ++ rest) from rfl]
          rw [show parseValue (fuel + 1) ('-' :: (natToChars i.natAbs ++ rest))
                = (parseDigits (natToChars i.natAbs ++ rest)).map
                    (fun p => (Json.num (-(p.1 : Int)), p.2)) from rfl]
          rw [parseDigits_natToChars _ rest hrest]
          show some (Json.num (-((i.natAbs : Nat) : Int)), rest) = some (Json.num i, rest)
          rw [show -((i.natAbs : Nat) : Int) = i by omega]
        · rw [show serJson (Json.num i) = natToChars i.toNat by
              simp [serJson, intToChars, hi]]
          obtain ⟨c, cs, hsplit⟩ : ∃ c cs, natToChars i.toNat = c :: cs := by
            match h : natToChars i.toNat with
            | [] => exact absurd h (natToChars_ne_nil _)
            | c :: cs => exact ⟨c, cs, rfl⟩
          have hc : isDigitChar c = true :=
            natToChars_digits i.toNat c (by rw [hsplit]; exact List.mem_cons_self c cs)
          rw [hsplit, List.cons_append, parseValue_digit hc, ← List.cons_append, ← hsplit,
            parseDigits_natToChars i.toNat rest hrest]
          show some (Json.num ((i.toNat : Nat) : Int), rest) = some (Json.num i, rest)
          rw [show ((i.toNat : Nat) : Int) = i from Int.toNat_of_nonneg (by omega)]
      | str s =>
        rw [show serJson (Json.str s) = '"' :: (jescList s.data ++ ['"']) by simp [serJson]]
        rw [List.cons_append, List.append_assoc]
        rw [show (['"'] : List Char) ++ rest = '"' :: rest from rfl]
        rw [show parseValue (fuel + 1) ('"' :: (jescList s.data ++ '"' :: rest))
              = (parseStringBody (jescList s.data ++ '"' :: rest)).map
                  (fun p => (Json.str ⟨p.1⟩, p.2)) from rfl]
        rw [parseStringBody_jesc s.data rest]
        rfl
      | arr xs =>
        cases xs with
        | nil =>
          rw [show serJson (Json.arr []) = ['[', ']'] by simp [serJson]]
          exact rfl
        | cons x xs =>
          have hks : keysOk x = true ∧ keysOkArr xs = true := by
            have h2 : keysOkArr (x :: xs) = true := by
              rw [show keysOk (Json.arr (x :: xs)) = keysOkArr (x :: xs) by
                simp [keysOk]] at hk
              exact hk
            simpa [keysOkArr] using h2
          have hfA : jfuelA (x :: xs) ≤ fuel := by
            rw [show jfuelV (Json.arr (x :: xs)) = 1 + jfuelA (x :: xs) by simp [jfuelV]] at hf
            omega
          rw [show serJson (Json.arr (x :: xs)) = '[' :: (serArr x xs ++ [']']) by
            simp [serJson]]
          rw [List.cons_append, List.append_assoc]
          rw [show ([']'] : List Char) ++ rest = ']' :: rest from rfl]
          obtain ⟨c, cs', hx, hws, hne⟩ := serJson_head x
          have hsa : ∃ W, serArr x xs ++ ']' :: rest = c :: W := by
            cases xs with
            | nil =>
              exact ⟨cs' ++ ']' :: rest, by simp [serArr, hx]⟩
            | cons y ys =>
              exact ⟨cs' ++ ([',', ' '] ++ (serArr y ys ++ ']' :: rest)),
                by simp [serArr, hx]⟩
          obtain ⟨W, hW⟩ := hsa
          rw [hW, parseValue_lbracket hws hne, ← hW]
          rw [ihA x xs rest hks.1 hks.2 hfA]
          rfl
      | obj kvs =>
        cases kvs with
        | nil =>
          rw [show serJson (Json.obj []) = [lbrace, rbrace] by simp [serJson]]
          exact rfl
        | cons kv kvs =>
          obtain ⟨k, v⟩ := kv
          have hparts : noDupKeys (((k, v) :: kvs).map Prod.fst) = true ∧
              keysOk v = true ∧ keysOkFields kvs = true := by
            rw [show keysOk (Json.obj ((k, v) :: kvs))
                  = (noDupKeys (((k, v) :: kvs).map Prod.fst) && keysOkFields ((k, v) :: kvs)) by
              simp [keysOk]] at hk
            have h1 := (Bool.and_eq_true _ _).mp hk
            have h2 : keysOk v = true ∧ keysOkFields kvs = true := by
              simpa [keysOkFields] using h1.2
            exact ⟨h1.1, h2⟩
          have hfO : jfuelO ((k, v) :: kvs) ≤ fuel := by
            rw [show jfuelV (Json.obj ((k, v) :: kvs)) = 1 + jfuelO ((k, v) :: kvs) by
              simp [jfuelV]] at hf
            omega
          rw [show serJson (Json.obj ((k, v) :: kvs))
                = lbrace :: (serFields (k, v) kvs ++ [rbrace]) by simp [serJson]]
          rw [List.cons_append, List.append_assoc]
          rw [show ([rbrace] : List Char) ++ rest = rbrace :: rest from rfl]
          have hsf : ∃ W, serFields (k, v) kvs = '"' :: W := by
            cases kvs with
            | nil => exact ⟨(jescList k.data ++ ['"', ':', ' ']) ++ serJson v, by
                simp [serFields]⟩
            | cons kv2 kvs2 =>
              exact ⟨((jescList k.data ++ ['"', ':', ' ']) ++ serJson v) ++
                ([',', ' '] ++ serFields kv2 kvs2), by simp [serFields]⟩
          obtain ⟨W, hWf⟩ := hsf
          rw [hWf]
          rw [show ('"' :: W) ++ rbrace :: rest = '"' :: (W ++ rbrace :: rest) from rfl]
          rw [parseValue_lbrace_quote]
          rw [show ('"' :: (W ++ rbrace :: rest)) = ('"' :: W) ++ rbrace :: rest from rfl]
          rw [← hWf, ihO k v kvs rest hparts.2.1 hparts.2.2 hfO]
          show some (Json.obj (dictOfPairs ((k, v) :: kvs)), rest)
              = some (Json.obj ((k, v) :: kvs), rest)
          rw [dictOfPairs_nodup _ hparts.1]
    · intro x xs rest hkx hkxs hfA
      cases xs with
      | nil =>
        rw [show serArr x [] = serJson x by simp [serArr]]
        have hfx : jfuelV x ≤ fuel := by
          rw [show jfuelA [x] = 1 + max (jfuelV x) (jfuelA []) by simp [jfuelA]] at hfA
          simp [jfuelA] at hfA
          omega
        simp only [parseArrItems]
        rw [ihV x (']' :: rest) hkx hfx (by rfl)]
        exact rfl
      | cons y ys =>
        have hky : keysOk y = true ∧ keysOkArr ys = true := by
          simpa [keysOkArr] using hkxs
        have hfx : jfuelV x ≤ fuel ∧ jfuelA (y :: ys) ≤ fuel := by
          rw [show jfuelA (x :: y :: ys) = 1 + max (jfuelV x) (jfuelA (y :: ys)) by
            simp [jfuelA]] at hfA
          omega
        rw [show serArr x (y :: ys) = serJson x ++ [',', ' '] ++ serArr y ys by
          simp [serArr]]
        rw [List.append_assoc, List.append_assoc]
        rw [show ([',', ' '] : List Char) ++ (serArr y ys ++ ']' :: rest)
              = ',' :: ' ' :: (serArr y ys ++ ']' :: rest) from rfl]
        simp only [parseArrItems]
        rw [ihV x (',' :: ' ' :: (serArr y ys ++ ']' :: rest)) hkx hfx.1 (by rfl)]
        show (parseArrItems fuel (' ' :: (serArr y ys ++ ']' :: rest))).map
              (fun p => (x :: p.1, p.2)) = _
        rw [parseArrItems_cons_ws (by decide) fuel]
        rw [ihA y ys rest hky.1 hky.2 hfx.2]
        rfl
    · intro k v kvs rest hkv hkvs hfO
      cases kvs with
      | nil =>
        have hfv : jfuelV v ≤ fuel := by
          rw [show jfuelO [(k, v)] = 1 + max (jfuelV v) (jfuelO []) by simp [jfuelO]] at hfO
          simp [jfuelO] at hfO
          omega
        have hin : serFields (k, v) [] ++ rbrace :: rest
            = '"' :: (jescList k.data ++ '"' :: ':' :: ' ' :: (serJson v ++ rbrace :: rest)) := by
          simp [serFields, List.append_assoc]
        rw [hin, parseObjItems_step]
        rw [parseStringBody_jesc k.data (':' :: ' ' :: (serJson v ++ rbrace :: rest))]
        show (match parseValue fuel (' ' :: (serJson v ++ rbrace :: rest)) with
              | none => none
              | some (v2, rest3) =>
                match skipWsChars rest3 with
                | ',' :: rest4 => (parseObjItems fuel rest4).map
                    (fun p => ((String.mk k.data, v2) :: p.1, p.2))
                | c5 :: rest5 =>
                  if c5 = rbrace then some ([(String.mk k.data, v2)], rest5) else none
                | [] => none) = some ([(k, v)], rest)
        rw [parseValue_cons_ws (by decide) fuel]
        rw [ihV v (rbrace :: rest) hkv hfv (by rfl)]
        show (if rbrace = rbrace then some ([(String.mk k.data, v)], rest) else none)
            = some ([(k, v)], rest)
        rw [if_pos rfl]
      | cons kv2 kvs2 =>
        obtain ⟨k2, v2⟩ := kv2
        have hkparts : keysOk v2 = true ∧ keysOkFields kvs2 = true := by
          simpa [keysOkFields] using hkvs
        have hfparts : jfuelV v ≤ fuel ∧ jfuelO ((k2, v2) :: kvs2) ≤ fuel := by
          rw [show jfuelO ((k, v) :: (k2, v2) :: kvs2)
                = 1 + max (jfuelV v) (jfuelO ((k2, v2) :: kvs2)) by simp [jfuelO]] at hfO
          omega
        have hin : serFields (k, v) ((k2, v2) :: kvs2) ++ rbrace :: rest
            = '"' :: (jescList k.data ++ '"' :: ':' :: ' ' ::
                (serJson v ++ ',' :: ' ' :: (serFields (k2, v2) kvs2 ++ rbrace :: rest))) := by
          simp [serFields, List.append_assoc]
        rw [hin, parseObjItems_step]
        rw [parseStringBody_jesc k.data
          (':' :: ' ' :: (serJson v ++ ',' :: ' ' :: (serFields (k2, v2) kvs2 ++ rbrace :: rest)))]
        show (match parseValue fuel
                (' ' :: (serJson v ++ ',' :: ' ' :: (serFields (k2, v2) kvs2 ++ rbrace :: rest))) with
              | none => none
              | some (w, rest3) =>
                match skipWsChars rest3 with
                | ',' :: rest4 => (parseObjItems fuel rest4).map
                    (fun p => ((String.mk k.data, w) :: p.1, p.2))
                | c5 :: rest5 =>
                  if c5 = rbrace then some ([(String.mk k.data, w)], rest5) else none
                | [] => none) = some ((k, v) :: (k2, v2) :: kvs2, rest)
        rw [parseValue_cons_ws (by decide) fuel]
        rw [ihV v (',' :: ' ' :: (serFields (k2, v2) kvs2 ++ rbrace :: rest)) hkv
          hfparts.1 (by rfl)]
        show (parseObjItems fuel (' ' :: (serFields (k2, v2) kvs2 ++ rbrace :: rest))).map
              (fun p => ((String.mk k.data, v) :: p.1, p.2))
            = some ((k, v) :: (k2, v2) :: kvs2, rest)
        rw [parseObjItems_cons_ws (by decide) fuel]
        rw [ihO k2 v2 kvs2 rest hkparts.1 hkparts.2 hfparts.2]
        rfl

mutual
/-- The call-depth fuel needed for a serialized value is at most its
serialized length. -/
theorem jfuelV_le : ∀ j : Json, jfuelV j ≤ (serJson j).length
  | .null => by simp only [jfuelV, serJson]; decide
  | .bool b => by cases b <;> (simp only [jfuelV, serJson]; decide)
  | .num i => by
    have h1 : (serJson (Json.num i)).length ≥ 1 := by
      obtain ⟨c, cs, h, _, _⟩ := serJson_head (Json.num i)
      simp [h]
    simp only [jfuelV]
    omega
  | .str s => by simp [jfuelV, serJson]
  | .arr [] => by simp [jfuelV, jfuelA, serJson]
  | .arr (x :: xs) => by
    have h := jfuelA_le x xs
    simp only [jfuelV, serJson, List.length_cons, List.length_append]
    omega
  | .obj [] => by simp [jfuelV, jfuelO, serJson]
  | .obj (kv :: kvs) => by
    have h := jfuelO_le kv kvs
    simp only [jfuelV, serJson, List.length_cons, List.length_append]
    omega
termination_by j => sizeOf j
decreasing_by all_goals (simp_wf; try omega)

/-- Fuel bound for array element runs. -/
theorem jfuelA_le : ∀ (x : Json) (xs : List Json),
    jfuelA (x :: xs) ≤ (serArr x xs).length + 1
  | x, [] => by
    have h := jfuelV_le x
    simp only [jfuelA, serArr, jfuelA]
    omega
  | x, y :: ys => by
    have h1 := jfuelV_le x
    have h2 := jfuelA_le y ys
    simp only [jfuelA] at h2 ⊢
    simp only [serArr, List.length_append, List.length_cons, List.length_nil] at h2 ⊢
    omega
termination_by x xs => sizeOf x + sizeOf xs
decreasing_by all_goals (simp_wf; try omega)

/-- Fuel bound for object field runs. -/
theorem jfuelO_le : ∀ (kv : String × Json) (kvs : List (String × Json)),
    jfuelO (kv :: kvs) ≤ (serFields kv kvs).length + 1
  | (k, v), [] => by
    have h := jfuelV_le v
    simp only [jfuelO, serFields, jfuelO, List.length_cons, List.length_append]
    omega
  | (k, v), kv2 :: kvs2 => by
    have h1 := jfuelV_le v
    have h2 := jfuelO_le kv2 kvs2
    simp only [jfuelO] at h2 ⊢
    simp only [serFields, List.length_append, List.length_cons, List.length_nil] at h2 ⊢
    omega
termination_by kv kvs => sizeOf kv + sizeOf kvs
decreasing_by all_goals (simp_wf; try omega)
end

/-- `json.loads` inverts `json.dumps` on any envelope built by
`dumps_message` whose payload has duplicate-free object keys (every payload
serialized from a Python object does). -/
theorem loads_dumps_message (mt : String) (p : Json) (hp : keysOk p = true) :
    loads (dumps_message mt p)
      = some (Json.obj [("message_type", Json.str mt), ("payload", p)]) := by
  have hek : keysOk (Json.obj [("message_type", Json.str mt), ("payload", p)]) = true := by
    simp [keysOk, keysOkFields, noDupKeys, hp]
  have hfuel : jfuelV (Json.obj [("message_type", Json.str mt), ("payload", p)])
      ≤ (serJson (Json.obj [("message_type", Json.str mt), ("payload", p)])).length + 1 :=
    le_trans (jfuelV_le _) (by omega)
  have hparse := (parse_ser_all
      ((serJson (Json.obj [("message_type", Json.str mt), ("payload", p)])).length + 1)).1
      (Json.obj [("message_type", Json.str mt), ("payload", p)]) [] hek hfuel (by rfl)
  rw [List.append_nil] at hparse
  show (match parseValue ((dumps_message mt p).length + 1) (dumps_message mt p).data with
        | some (j, rest) => if skipWsChars rest = [] then some j else none
        | none => none)
      = some (Json.obj [("message_type", Json.str mt), ("payload", p)])
  rw [show (dumps_message mt p).data
        = serJson (Json.obj [("message_type", Json.str mt), ("payload", p)]) from rfl]
  rw [show (dumps_message mt p).length
        = (serJson (Json.obj [("message_type", Json.str mt), ("payload", p)])).length from rfl]
  rw [hparse]
  rfl

/-! ### Claim C2: connection-target construction -/

/-- Updating a key makes it the lookup result. -/
theorem alookup_dictInsert_self {α : Type} (m : List (String × α)) (k : String) (v : α) :
    alookup (dictInsert m k v) k = some v := by
  induction m with
  | nil => simp [dictInsert, alookup]
  | cons kv rest ih =>
    obtain ⟨k0, v0⟩ := kv
    by_cases hk : k0 = k
    · subst hk
      simp [dictInsert, alookup]
    · simp [dictInsert, alookup, hk, ih]

/-- C2: with no pre-existing non-empty `token` query parameter, query mode
(`token_in_header = false`) produces a URL whose `token` parameter is the
token and an empty header set, leaving all other URL components unchanged;
header mode produces the unchanged URL and exactly the
`Authorization: Bearer <token>` header; and a URL that already carries a
non-empty `token` parameter is never rewritten. -/
theorem c2_connect_target (t : String) (u : ParsedUrl) (ht : t ≠ "")
    (hu : (alookup (dictOfPairs u.query) "token").getD "" = "") :
    ((connectTarget u (some t) false).2 = none ∧
     alookup ((connectTarget u (some t) false).1.query) "token" = some t ∧
     (connectTarget u (some t) false).1.scheme = u.scheme ∧
     (connectTarget u (some t) false).1.netloc = u.netloc ∧
     (connectTarget u (some t) false).1.path = u.path ∧
     (connectTarget u (some t) false).1.fragment = u.fragment) ∧
    connectTarget u (some t) true = (u, some [("Authorization", "Bearer " ++ t)]) ∧
    (∀ u2 : ParsedUrl, (alookup (dictOfPairs u2.query) "token").getD "" ≠ "" →
      build_gateway_ws_url u2 (some t) = u2) := by
  refine ⟨⟨?_, ?_, ?_, ?_, ?_, ?_⟩, ?_, ?_⟩
  · simp [connectTarget, build_gateway_headers]
  all_goals try
    simp [connectTarget, build_gateway_ws_url, ht, hu, alookup_dictInsert_self]
  · simp [connectTarget, build_gateway_ws_url, build_gateway_headers, ht]
  · intro u2 hu2
    simp [build_gateway_ws_url, ht, hu2]

/-- C2 witness: a concrete token and URL exercising both placements. -/
theorem c2_connect_target_witness :
    ("tok" : String) ≠ "" ∧
    (alookup (dictOfPairs (ParsedUrl.mk "wss" "host" "/ws" "" [("a", "1")]).query)
      "token").getD "" = "" ∧
    (((connectTarget (ParsedUrl.mk "wss" "host" "/ws" "" [("a", "1")]) (some "tok") false).2
        = none ∧
      alookup ((connectTarget (ParsedUrl.mk "wss" "host" "/ws" "" [("a", "1")])
        (some "tok") false).1.query) "token" = some "tok" ∧
      (connectTarget (ParsedUrl.mk "wss" "host" "/ws" "" [("a", "1")])
        (some "tok") false).1.scheme = "wss" ∧
      (connectTarget (ParsedUrl.mk "wss" "host" "/ws" "" [("a", "1")])
        (some "tok") false).1.netloc = "host" ∧
      (connectTarget (ParsedUrl.mk "wss" "host" "/ws" "" [("a", "1")])
        (some "tok") false).1.path = "/ws" ∧
      (connectTarget (ParsedUrl.mk "wss" "host" "/ws" "" [("a", "1")])
        (some "tok") false).1.fragment = "") ∧
     connectTarget (ParsedUrl.mk "wss" "host" "/ws" "" [("a", "1")]) (some "tok") true
        = (ParsedUrl.mk "wss" "host" "/ws" "" [("a", "1")],
           some [("Authorization", "Bearer tok")]) ∧
     (∀ u2 : ParsedUrl, (alookup (dictOfPairs u2.query) "token").getD "" ≠ "" →
        build_gateway_ws_url u2 (some "tok") = u2)) :=
  ⟨by decide, by rfl,
    c2_connect_target "tok" (ParsedUrl.mk "wss" "host" "/ws" "" [("a", "1")])
      (by decide) (by rfl)⟩

/-! ### Claim C3: envelope round trip -/

/-- C3: decoding the bytes produced by `dumps_message(mt, p)` yields exactly
the envelope `{message_type: mt, payload: p}`, for every message type and
every payload whose objects have duplicate-free keys (all payloads built
from Python objects are of this form). -/
theorem c3_envelope_roundtrip (mt : String) (p : Json) (hp : keysOk p = true) :
    loads (dumps_message mt p)
      = some (Json.obj [("message_type", Json.str mt), ("payload", p)]) :=
  loads_dumps_message mt p hp

/-- C3 witness: the vital-payload scenario of the specification. -/
theorem c3_envelope_roundtrip_witness :
    keysOk (Json.obj [("heart_rate", Json.num 75), ("init_stat", Json.num 1)]) = true ∧
    loads (dumps_message "vital"
        (Json.obj [("heart_rate", Json.num 75), ("init_stat", Json.num 1)]))
      = some (Json.obj [("message_type", Json.str "vital"),
          ("payload", Json.obj [("heart_rate", Json.num 75), ("init_stat", Json.num 1)])]) :=
  ⟨by simp [keysOk, keysOkFields, noDupKeys],
   c3_envelope_roundtrip "vital" _ (by simp [keysOk, keysOkFields, noDupKeys])⟩

/-! ### Claim C4: timestamp format -/

/-- Dropping while a predicate holds skips a fully-satisfying prefix. -/
theorem dropWhile_append_all {α : Type} (p : α → Bool) (l1 l2 : List α)
    (h : ∀ c ∈ l1, p c = true) : List.dropWhile p (l1 ++ l2) = List.dropWhile p l2 := by
  induction l1 with
  | nil => rfl
  | cons c cs ih =>
    simp only [List.cons_append, List.dropWhile_cons, h c (by simp)]
    exact ih (fun x hx => h x (by simp [hx]))

/-- Taking while a predicate holds keeps a fully-satisfying prefix. -/
theorem takeWhile_append_all {α : Type} (p : α → Bool) (l1 l2 : List α)
    (h : ∀ c ∈ l1, p c = true) :
    List.takeWhile p (l1 ++ l2) = l1 ++ List.takeWhile p l2 := by
  induction l1 with
  | nil => rfl
  | cons c cs ih =>
    simp only [List.cons_append, List.takeWhile_cons, h c (by simp)]
    rw [ih (fun x hx => h x (by simp [hx]))]
    simp

/-- All characters of a zero-padded numeric field are digits. -/
theorem zfill_digits (w n : Nat) : ∀ c ∈ zfill w n, isDigitChar c = true := by
  intro c hc
  simp only [zfill, List.mem_append] at hc
  rcases hc with hc | hc
  · rw [List.eq_of_mem_replicate hc]
    decide
  · exact natToChars_digits n c hc

/-- The fueled digit renderer emits at most `k` digits for `n < 10 ^ k`. -/
theorem natToCharsAux_len : ∀ (fuel n k : Nat), n < 10 ^ k →
    (natToCharsAux fuel n).length ≤ k := by
  intro fuel
  induction fuel with
  | zero => intro n k _; simp [natToCharsAux]
  | succ fuel ih =>
    intro n k hn
    match n with
    | 0 => simp [natToCharsAux]
    | n + 1 =>
      match k with
      | 0 => omega
      | k + 1 =>
        have hdiv : (n + 1) / 10 < 10 ^ k := by
          rw [Nat.div_lt_iff_lt_mul (by norm_num)]
          calc n + 1 < 10 ^ (k + 1) := hn
          _ = 10 ^ k * 10 := by ring
        have := ih ((n + 1) / 10) k hdiv
        simp only [natToCharsAux, List.length_append, List.length_cons, List.length_nil]
        omega

/-- Length of the decimal rendering, bounded by the digit count. -/
theorem natToChars_len_le {n k : Nat} (hk : 1 ≤ k) (hn : n < 10 ^ k) :
    (natToChars n).length ≤ k := by
  unfold natToChars
  split
  · simpa using hk
  · exact natToCharsAux_len _ _ _ hn

/-- A zero-padded field of width `w` has length exactly `w` when the value
fits in `w` digits. -/
theorem zfill_len {w n : Nat} (hw : 1 ≤ w) (hn : n < 10 ^ w) :
    (zfill w n).length = w := by
  have h := natToChars_len_le hw hn
  simp only [zfill, List.length_append, List.length_replicate]
  omega

/-- The sub-second field of a rendered timestamp is the six-digit
zero-padded microsecond field. -/
theorem fractionField_now_iso (t : UtcTime) :
    fractionField (now_iso t) = zfill 6 t.microsecond := by
  have hdig : ∀ (w n : Nat), ∀ c ∈ zfill w n, (!(c == '.')) = true := by
    intro w n c hc
    have := zfill_digits w n c hc
    simp only [Bool.not_eq_true', beq_eq_false_iff_ne, ne_eq]
    intro hh
    subst hh
    exact absurd this (by decide)
  have hdata : (now_iso t).data
      = zfill 4 t.year ++ (['-'] ++ (zfill 2 t.month ++ (['-'] ++ (zfill 2 t.day ++ (['T'] ++
        (zfill 2 t.hour ++ ([':'] ++ (zfill 2 t.minute ++ ([':'] ++ (zfill 2 t.second ++
        ('.' :: (zfill 6 t.microsecond ++ ['Z'])))))))))))) := by
    show zfill 4 t.year ++ ['-'] ++ zfill 2 t.month ++ ['-'] ++ zfill 2 t.day ++ ['T'] ++
        zfill 2 t.hour ++ [':'] ++ zfill 2 t.minute ++ [':'] ++ zfill 2 t.second ++ ['.'] ++
        zfill 6 t.microsecond ++ ['Z'] = _
    simp [List.append_assoc]
  unfold fractionField
  rw [hdata]
  rw [dropWhile_append_all _ _ _ (hdig 4 t.year)]
  rw [dropWhile_append_all _ _ _ (by intro c hc; simp at hc; subst hc; decide)]
  rw [dropWhile_append_all _ _ _ (hdig 2 t.month)]
  rw [dropWhile_append_all _ _ _ (by intro c hc; simp at hc; subst hc; decide)]
  rw [dropWhile_append_all _ _ _ (hdig 2 t.day)]
  rw [dropWhile_append_all _ _ _ (by intro c hc; simp at hc; subst hc; decide)]
  rw [dropWhile_append_all _ _ _ (hdig 2 t.hour)]
  rw [dropWhile_append_all _ _ _ (by intro c hc; simp at hc; subst hc; decide)]
  rw [dropWhile_append_all _ _ _ (hdig 2 t.minute)]
  rw [dropWhile_append_all _ _ _ (by intro c hc; simp at hc; subst hc; decide)]
  rw [dropWhile_append_all _ _ _ (hdig 2 t.second)]
  rw [show List.dropWhile (fun c => !(c == '.'))
        ('.' :: (zfill 6 t.microsecond ++ ['Z']))
      = '.' :: (zfill 6 t.microsecond ++ ['Z']) from rfl]
  rw [List.drop_one, List.tail_cons]
  rw [takeWhile_append_all _ _ _ (by
    intro c hc
    have := zfill_digits 6 t.microsecond c hc
    simp only [Bool.not_eq_true', beq_eq_false_iff_ne, ne_eq]
    intro hh
    subst hh
    exact absurd this (by decide))]
  rw [show List.takeWhile (fun c => !(c == 'Z')) ['Z'] = [] from rfl, List.append_nil]

/-- C4 counterexample: at a concrete instant the sub-second field of the
rendered timestamp has six digits, not three. -/
theorem c4_counterexample :
    (fractionField (now_iso ⟨2026, 10, 12, 3, 4, 5, 123456⟩)).length ≠ 3 := by decide

/-- C4 (amended): `now_iso` renders a fixed-format UTC timestamp whose
sub-second field is the microsecond count, exactly six digits. -/
theorem c4_amended (t : UtcTime) (h : t.microsecond < 1000000) :
    (fractionField (now_iso t)).length = 6 ∧
    ∀ c ∈ fractionField (now_iso t), isDigitChar c = true := by
  rw [fractionField_now_iso]
  exact ⟨zfill_len (by norm_num) (by norm_num; omega), zfill_digits 6 t.microsecond⟩

/-- C4 witness. -/
theorem c4_amended_witness :
    (123456 : Nat) < 1000000 ∧
    ((fractionField (now_iso ⟨2026, 10, 12, 3, 4, 5, 123456⟩)).length = 6 ∧
     ∀ c ∈ fractionField (now_iso ⟨2026, 10, 12, 3, 4, 5, 123456⟩), isDigitChar c = true) :=
  ⟨by decide, c4_amended ⟨2026, 10, 12, 3, 4, 5, 123456⟩ (by decide)⟩

/-! ### Claim C5: the drain loop drops output buffered at process exit -/

/-- C5: if the external process writes a chunk and exits before the drain
thread's next iteration, the drain loop observes `poll()` non-`None`,
breaks without reading, and pushes the sentinel: the chunk stays in the
pipe forever and `get_packets` never returns it. -/
theorem c5_lost_tail_chunk :
    (drainRun [.procWrite [7], .procExit, .drainIter]).threadDone = true ∧
    (drainRun [.procWrite [7], .procExit, .drainIter]).outq = [none] ∧
    (drainRun [.procWrite [7], .procExit, .drainIter]).buffered = [[7]] ∧
    get_packets (drainRun [.procWrite [7], .procExit, .drainIter]).outq = [] := by
  refine ⟨rfl, rfl, rfl, rfl⟩

/-! ### Claim C7: failed start leaves the pipeline inert -/

/-- C7: when the external binary cannot be launched, `start` returns
`false`, the pipeline holds no process and no reader thread, every
subsequent `encode` is a no-op (nothing is written and the state is
unchanged, over any sequence of calls), and `get_packets` returns the
empty list. -/
theorem c7_start_unavailable (rate channels : Nat) (pcms : List (Packet × Bool)) :
    ((AACEncoder.init rate channels).start false).2 = false ∧
    ((AACEncoder.init rate channels).start false).1 = AACEncoder.init rate channels ∧
    (∀ pcm wOk,
      ((AACEncoder.init rate channels).start false).1.encode pcm wOk
        = ((AACEncoder.init rate channels).start false).1) ∧
    (pcms.foldl (fun e pw => e.encode pw.1 pw.2)
        ((AACEncoder.init rate channels).start false).1).stdinWrites = [] ∧
    (((AACEncoder.init rate channels).start false).1).drainNow = [] := by
  refine ⟨rfl, rfl, fun pcm wOk => rfl, ?_, rfl⟩
  have hfix : ∀ l : List (Packet × Bool),
      l.foldl (fun e pw => e.encode pw.1 pw.2) (AACEncoder.init rate channels)
        = AACEncoder.init rate channels := by
    intro l
    induction l with
    | nil => rfl
    | cons pw rest ih => simpa [AACEncoder.encode, AACEncoder.init] using ih
  simpa [AACEncoder.start] using congrArg AACEncoder.stdinWrites (hfix pcms)

/-! ### Claim C10: the H.264 boundary never raises -/

/-- C10: `H264Encoder.encode` and `flush` always return a list: the empty
list when the codec is absent or the underlying call raises, and the
underlying packets when it succeeds. -/
theorem c10_frame_encoder_total (r : CodecResult) (pkts : List Packet) :
    H264Encoder.encode ⟨false⟩ r = [] ∧ H264Encoder.flush ⟨false⟩ r = [] ∧
    (∀ e : H264Encoder, e.encode .exn = [] ∧ e.flush .exn = []) ∧
    H264Encoder.encode ⟨true⟩ (.ok pkts) = pkts ∧
    H264Encoder.flush ⟨true⟩ (.ok pkts) = pkts := by
  refine ⟨rfl, rfl, ?_, rfl, rfl⟩
  intro e
  obtain ⟨avail⟩ := e
  cases avail <;> exact ⟨rfl, rfl⟩

/-! ### Claim C6: per-modality sequence indices -/

/-- Indices of the audio packet loop form a contiguous run. -/
theorem sendIndices_audioPacketSends (ps : List Packet) : ∀ i : Nat,
    sendIndices "audio" (audioPacketSends ps i) = List.range' i ps.length := by
  induction ps with
  | nil => intro i; rfl
  | cons p ps ih =>
    intro i
    simp only [audioPacketSends, sendIndices, List.filterMap_cons, List.length_cons,
      List.range', if_true]
    simpa [sendIndices] using ih (i + 1)

/-- Indices of the audio main loop form a contiguous run, independent of
how the packets are grouped into source chunks. -/
theorem sendIndices_audioLoopSends (chunks : List (List Packet)) : ∀ i : Nat,
    sendIndices "audio" (audioLoopSends chunks i)
      = List.range' i (chunks.map List.length).sum := by
  induction chunks with
  | nil => intro i; rfl
  | cons chunk rest ih =>
    intro i
    simp only [audioLoopSends, sendIndices, List.filterMap_append, List.map_cons,
      List.sum_cons]
    rw [show List.filterMap _ (audioPacketSends chunk i)
          = sendIndices "audio" (audioPacketSends chunk i) from rfl,
        show List.filterMap _ (audioLoopSends rest (i + chunk.length))
          = sendIndices "audio" (audioLoopSends rest (i + chunk.length)) from rfl,
        sendIndices_audioPacketSends, ih (i + chunk.length)]
    have hra := List.range'_append i chunk.length (List.map List.length rest).sum 1
    simp only [Nat.one_mul] at hra
    exact hra.trans (by rw [Nat.add_comm])

/-- Indices of one video frame's sends are all the frame ordinal. -/
theorem sendIndices_videoFrameSends (ps : List Packet) (i : Nat) :
    sendIndices "video" (videoFrameSends ps i) = List.replicate ps.length i := by
  induction ps with
  | nil => rfl
  | cons p ps ih =>
    simp only [videoFrameSends, sendIndices, List.filterMap_cons, List.length_cons,
      List.replicate_succ]
    simpa [sendIndices] using ih

/-- A constant list is non-decreasing. -/
theorem pairwise_le_replicate (n i : Nat) :
    List.Pairwise (· ≤ ·) (List.replicate n i) := by
  induction n with
  | zero => simp
  | succ n ih =>
    rw [List.replicate_succ, List.pairwise_cons]
    exact ⟨fun b hb => le_of_eq (List.eq_of_mem_replicate hb).symm, ih⟩

/-- The video main-loop index list decomposes frame by frame. -/
theorem sendIndices_videoLoopSends_cons (f : List Packet) (rest : List (List Packet)) (i : Nat) :
    sendIndices "video" (videoLoopSends (f :: rest) i)
      = List.replicate f.length i ++ sendIndices "video" (videoLoopSends rest (i + 1)) := by
  simp only [videoLoopSends, sendIndices, List.filterMap_append]
  rw [show List.filterMap _ (videoFrameSends f i)
        = sendIndices "video" (videoFrameSends f i) from rfl, sendIndices_videoFrameSends]

/-- Every index emitted by the video main loop lies in the frame range. -/
theorem mem_sendIndices_videoLoopSends (frames : List (List Packet)) : ∀ (i a : Nat),
    a ∈ sendIndices "video" (videoLoopSends frames i) → i ≤ a ∧ a < i + frames.length := by
  induction frames with
  | nil => intro i a ha; simp [videoLoopSends, sendIndices] at ha
  | cons f rest ih =>
    intro i a ha
    rw [sendIndices_videoLoopSends_cons, List.mem_append] at ha
    simp only [List.length_cons]
    rcases ha with ha | ha
    · have := List.eq_of_mem_replicate ha
      omega
    · have := ih (i + 1) a ha
      omega

/-- The video main-loop indices are non-decreasing. -/
theorem sorted_sendIndices_videoLoopSends (frames : List (List Packet)) : ∀ i : Nat,
    List.Pairwise (· ≤ ·) (sendIndices "video" (videoLoopSends frames i)) := by
  induction frames with
  | nil => intro i; simp [videoLoopSends, sendIndices]
  | cons f rest ih =>
    intro i
    rw [sendIndices_videoLoopSends_cons, List.pairwise_append]
    refine ⟨pairwise_le_replicate f.length i, ih (i + 1), ?_⟩
    intro a hma b hmb
    rw [List.eq_of_mem_replicate hma]
    have := mem_sendIndices_videoLoopSends rest (i + 1) b hmb
    omega

/-- Indices of the video teardown flush form a contiguous run. -/
theorem sendIndices_videoFlushSends (ps : List Packet) : ∀ i : Nat,
    sendIndices "video" (videoFlushSends ps i) = List.range' i ps.length := by
  induction ps with
  | nil => intro i; rfl
  | cons p ps ih =>
    intro i
    simp only [videoFlushSends, sendIndices, List.filterMap_cons, List.length_cons,
      List.range', if_true]
    simpa [sendIndices] using ih (i + 1)

/-- A contiguous run is non-decreasing. -/
theorem pairwise_le_range' (s n : Nat) : List.Pairwise (· ≤ ·) (List.range' s n) := by
  induction n generalizing s with
  | zero => simp
  | succ n ih =>
    rw [List.range'_succ, List.pairwise_cons]
    refine ⟨fun b hb => ?_, ih (s + 1)⟩
    have := (List.mem_range'_1.mp hb).1
    omega

/-- C6 counterexample: one captured frame yielding two encoded packets
sends two envelopes with the same `frame_index`, so the video indices are
not strictly increasing. -/
theorem c6_counterexample :
    ¬ List.Pairwise (· < ·)
      (sendIndices "video" (video_sender true true true [[[1], [2]]] [])) := by decide

/-- C6 (amended): audio `chunk_index` values are exactly `0, 1, 2, …` — one
per sent packet, strictly increasing and starting at 0, however the packets
group into source chunks.  Video `frame_index` values are non-decreasing:
all packets of one frame share that frame's ordinal (the teardown flush
then increments per packet), so they are strictly increasing only when
each frame yields at most one packet. -/
theorem c6_amended (chunks frames : List (List Packet)) (flush : List Packet) :
    sendIndices "audio" (audio_sender true true true chunks)
      = List.range ((chunks.map List.length).sum) ∧
    List.Pairwise (· ≤ ·) (sendIndices "video" (video_sender true true true frames flush)) := by
  constructor
  · have h1 : sendIndices "audio" (audio_sender true true true chunks)
        = sendIndices "audio" (audioLoopSends chunks 0) := by
      simp [audio_sender, sendIndices, List.filterMap_append]
    rw [h1, sendIndices_audioLoopSends chunks 0, List.range_eq_range']
  · have h2 : sendIndices "video" (video_sender true true true frames flush)
        = sendIndices "video" (videoLoopSends frames 0)
          ++ sendIndices "video" (videoFlushSends flush frames.length) := by
      simp [video_sender, sendIndices, List.filterMap_append]
    rw [h2, List.pairwise_append]
    refine ⟨sorted_sendIndices_videoLoopSends frames 0, ?_, ?_⟩
    · rw [sendIndices_videoFlushSends]
      exact pairwise_le_range' frames.length flush.length
    · intro a hma b hmb
      have ha := mem_sendIndices_videoLoopSends frames 0 a hma
      rw [sendIndices_videoFlushSends] at hmb
      have hb := (List.mem_range'_1.mp hmb).1
      omega

/-! ### Claim C1: capability skip versus first-completion shutdown -/

/-- C1 counterexample: with pyaudio missing, the audio producer's early
return sets no stop signal — yet the session trace of that `run_client` run
cancels the video task (and every other task), because the completed audio
task satisfies `asyncio.wait(FIRST_COMPLETED)`. -/
theorem c1_counterexample :
    Ev.setStop ∉ audio_sender false true true [] ∧
    Ev.cancel TaskName.videoTask
      ∈ run_client_first_completion_trace false true true true true true [] [] [] [] := by
  exact ⟨by decide, by decide⟩

/-- C1 (amended): a producer that skips on a missing capability does not
itself set the shared stop signal, but its early return completes its task,
`run_client`'s first-completion wait then returns, and the `finally` block
sets the stop signal and cancels every task — the session does not continue
with the remaining modalities. -/
theorem c1_amended (pyaudioAvail micOpenOk ffmpegStartOk : Bool)
    (h : pyaudioAvail = false ∨ micOpenOk = false ∨ ffmpegStartOk = false)
    (depsAvail camOpenOk codecOk : Bool) (audioChunks videoFrames : List (List Packet))
    (videoFlush : List Packet) (vitalChecks : List Bool) :
    Ev.setStop ∉ audio_sender pyaudioAvail micOpenOk ffmpegStartOk audioChunks ∧
    ∀ tsk : TaskName, Ev.cancel tsk
      ∈ run_client_first_completion_trace pyaudioAvail micOpenOk ffmpegStartOk depsAvail
          camOpenOk codecOk audioChunks videoFrames videoFlush vitalChecks := by
  constructor
  · cases pyaudioAvail <;> cases micOpenOk <;> cases ffmpegStartOk <;>
      simp_all [audio_sender]
  · intro tsk
    cases tsk <;>
      simp [run_client_first_completion_trace, runClientShutdown, allTasks]

/-- C1 witness. -/
theorem c1_amended_witness :
    ((false : Bool) = false ∨ (true : Bool) = false ∨ (true : Bool) = false) ∧
    (Ev.setStop ∉ audio_sender false true true [] ∧
     ∀ tsk : TaskName, Ev.cancel tsk
       ∈ run_client_first_completion_trace false true true true true true [] [] [] []) :=
  ⟨Or.inl rfl, c1_amended false true true (Or.inl rfl) true true true [] [] [] []⟩

/-! ### Claim C9: sends after the stop signal -/

/-- A trace without a stop event has no send after a stop. -/
theorem sendAfterStop_no_stop : ∀ tr : List Ev, Ev.setStop ∉ tr →
    sendAfterStop tr = false := by
  intro tr
  induction tr with
  | nil => intro _; rfl
  | cons e rest ih =>
    intro hmem
    have hrest : Ev.setStop ∉ rest := fun hh => hmem (List.mem_cons_of_mem e hh)
    cases e with
    | setStop => exact absurd (List.mem_cons_self _ _) hmem
    | log m => exact ih hrest
    | send m i => exact ih hrest
    | cancel t => exact ih hrest

/-- A trace whose only stop event is last has no send after a stop. -/
theorem sendAfterStop_stop_last : ∀ A : List Ev, Ev.setStop ∉ A →
    sendAfterStop (A ++ [Ev.setStop]) = false := by
  intro A
  induction A with
  | nil => intro _; rfl
  | cons e rest ih =>
    intro hmem
    have hrest : Ev.setStop ∉ rest := fun hh => hmem (List.mem_cons_of_mem e hh)
    cases e with
    | setStop => exact absurd (List.mem_cons_self _ _) hmem
    | log m => exact ih hrest
    | send m i => exact ih hrest
    | cancel t => exact ih hrest

/-- The vital producer trace contains no stop event. -/
theorem vital_no_stop : ∀ checks : List Bool, Ev.setStop ∉ vital_sender checks := by
  intro checks
  induction checks with
  | nil => simp [vital_sender]
  | cons check rest ih =>
    cases check <;> simp [vital_sender, ih]

/-- The audio packet loop emits only sends. -/
theorem audioPacketSends_no_stop : ∀ (ps : List Packet) (i : Nat),
    Ev.setStop ∉ audioPacketSends ps i := by
  intro ps
  induction ps with
  | nil => intro i; simp [audioPacketSends]
  | cons p rest ih => intro i; simp [audioPacketSends, ih (i + 1)]

/-- The audio main loop emits only sends. -/
theorem audioLoopSends_no_stop : ∀ (chunks : List (List Packet)) (i : Nat),
    Ev.setStop ∉ audioLoopSends chunks i := by
  intro chunks
  induction chunks with
  | nil => intro i; simp [audioLoopSends]
  | cons chunk rest ih =>
    intro i
    simp [audioLoopSends, audioPacketSends_no_stop, ih (i + chunk.length)]

/-- The video main loop emits only sends (never a stop event). -/
theorem videoLoopSends_not_stop : ∀ (frames : List (List Packet)) (i : Nat),
    ∀ e ∈ videoLoopSends frames i, isStop e = false := by
  intro frames
  induction frames with
  | nil => intro i e he; simp [videoLoopSends] at he
  | cons f rest ih =>
    intro i e he
    simp only [videoLoopSends, List.mem_append] at he
    rcases he with he | he
    · clear ih
      induction f with
      | nil => simp [videoFrameSends] at he
      | cons p ps ihf =>
        simp only [videoFrameSends, List.mem_cons] at he
        rcases he with he | he
        · subst he; rfl
        · exact ihf he
    · exact ih (i + 1) e he

/-- C9 counterexample: the video producer's teardown sets the stop signal
and then sends its flush packets, so a send occurs after the stop signal is
set. -/
theorem c9_counterexample :
    sendAfterStop (video_sender true true true [] [[1]]) = true := by decide

/-- C9 (amended): in each producer's own event trace no send follows the
stop signal — the vital loop checks the signal immediately before each send
and never sets it, and the audio loop sets it only as its final action —
except that the video producer's teardown, after itself setting the stop
signal, sends exactly one envelope per encoder flush packet. -/
theorem c9_amended (checks : List Bool) (pyA mic ff : Bool)
    (chunks frames : List (List Packet)) (flush : List Packet) :
    sendAfterStop (vital_sender checks) = false ∧
    sendAfterStop (audio_sender pyA mic ff chunks) = false ∧
    eventsAfterStop (video_sender true true true frames flush)
      = videoFlushSends flush frames.length := by
  refine ⟨sendAfterStop_no_stop _ (vital_no_stop checks), ?_, ?_⟩
  · cases pyA with
    | false => rfl
    | true =>
      cases mic with
      | false => rfl
      | true =>
        cases ff with
        | false => rfl
        | true =>
          show sendAfterStop (audioLoopSends chunks 0 ++ [Ev.setStop]) = false
          exact sendAfterStop_stop_last _ (audioLoopSends_no_stop chunks 0)
  · have hdecomp : video_sender true true true frames flush
        = (Ev.log "video capture started" :: videoLoopSends frames 0)
          ++ Ev.setStop :: videoFlushSends flush frames.length := by
      simp [video_sender]
    unfold eventsAfterStop
    rw [hdecomp, dropWhile_append_all _ _ _ ?hall]
    case hall =>
      intro e he
      simp only [List.mem_cons] at he
      rcases he with he | he
      · subst he; rfl
      · simp [videoLoopSends_not_stop frames 0 e he]
    rw [show List.dropWhile (fun e => !isStop e)
          (Ev.setStop :: videoFlushSends flush frames.length)
        = Ev.setStop :: videoFlushSends flush frames.length from rfl]
    rfl

/-! ### Claim C8: dispatcher classification of chunk envelopes -/

/-- Normal form of the dispatcher on an error-free `chunk` envelope with a
dict payload. -/
theorem dispatchMsg_chunk (kvs pkvs : List (String × Json))
    (hcode : jtruthyOpt (jget (Json.obj kvs) "code") = false)
    (hmt : jget (Json.obj kvs) "message_type" = some (Json.str "chunk"))
    (hp : jget (Json.obj kvs) "payload" = some (Json.obj pkvs)) :
    dispatchMsg (Json.obj kvs)
      = ((if jtruthyOpt (alookup pkvs "delta") then
            [RecvEvent.deltaChunk (jget (Json.obj kvs) "request_id")
              (jget (Json.obj kvs) "seq") (jtruthyOpt (jget (Json.obj kvs) "is_final"))
              ((alookup pkvs "delta").getD .null)]
          else []) ++
         (if jtruthyOpt (jget (Json.obj kvs) "is_final")
              && jNotNone (alookup pkvs "emotion_result") then
            [RecvEvent.emotionResult ((alookup pkvs "emotion_result").getD .null)]
          else [])) ++
        (if jtruthyOpt (jget (Json.obj kvs) "is_final")
            && (jNotNone (jget (Json.obj kvs) "token_usage")
                || jNotNone (jget (Json.obj kvs) "time_usage")) then
          [RecvEvent.usage (jget (Json.obj kvs) "request_id")
            (jget (Json.obj kvs) "token_usage") (jget (Json.obj kvs) "time_usage")]
         else []) := by
  simp only [dispatchMsg, hcode, hmt, hp, Bool.false_eq_true, if_false, isStrVal]
  simp

/-- C8 counterexample: an envelope that carries `message_type = "chunk"`, a
dict payload with a non-empty delta and `is_final = false`, but also a
truthy error `code`: the dispatcher emits only the error event and no delta
event, refuting the claim for such envelopes. -/
theorem c8_counterexample :
    jget (Json.obj [("message_type", Json.str "chunk"), ("code", Json.num 500),
        ("is_final", Json.bool false),
        ("payload", Json.obj [("delta", Json.str "hi")])]) "message_type"
      = some (Json.str "chunk") ∧
    jget (Json.obj [("message_type", Json.str "chunk"), ("code", Json.num 500),
        ("is_final", Json.bool false),
        ("payload", Json.obj [("delta", Json.str "hi")])]) "payload"
      = some (Json.obj [("delta", Json.str "hi")]) ∧
    jtruthy (Json.str "hi") = true ∧
    jtruthyOpt (jget (Json.obj [("message_type", Json.str "chunk"), ("code", Json.num 500),
        ("is_final", Json.bool false),
        ("payload", Json.obj [("delta", Json.str "hi")])]) "is_final") = false ∧
    (dispatchMsg (Json.obj [("message_type", Json.str "chunk"), ("code", Json.num 500),
        ("is_final", Json.bool false),
        ("payload", Json.obj [("delta", Json.str "hi")])])).filter isDeltaEvt = [] := by
  exact ⟨rfl, rfl, rfl, rfl, rfl⟩

/-- C8 (amended): for every inbound envelope with `message_type = "chunk"`,
no truthy error `code`, and a dict payload: a truthy delta with
`is_final = false` yields exactly one delta event carrying that delta and
no final-result event; `is_final = true` with a present (non-null)
`emotion_result` yields exactly one final-result event carrying it, and no
delta event when the payload's delta is not truthy. -/
theorem c8_amended (kvs pkvs : List (String × Json)) (d r : Json)
    (hcode : jtruthyOpt (jget (Json.obj kvs) "code") = false)
    (hmt : jget (Json.obj kvs) "message_type" = some (Json.str "chunk"))
    (hp : jget (Json.obj kvs) "payload" = some (Json.obj pkvs)) :
    (jtruthyOpt (jget (Json.obj kvs) "is_final") = false →
      alookup pkvs "delta" = some d → jtruthy d = true →
      (dispatchMsg (Json.obj kvs)).filter isDeltaEvt
        = [RecvEvent.deltaChunk (jget (Json.obj kvs) "request_id")
            (jget (Json.obj kvs) "seq") false d] ∧
      (dispatchMsg (Json.obj kvs)).filter isFinalEvt = []) ∧
    (jtruthyOpt (jget (Json.obj kvs) "is_final") = true →
      alookup pkvs "emotion_result" = some r → jNotNone (some r) = true →
      (dispatchMsg (Json.obj kvs)).filter isFinalEvt = [RecvEvent.emotionResult r] ∧
      (jtruthyOpt (alookup pkvs "delta") = false →
        (dispatchMsg (Json.obj kvs)).filter isDeltaEvt = [])) := by
  rw [dispatchMsg_chunk kvs pkvs hcode hmt hp]
  constructor
  · intro hfin hd hdt
    rw [hfin, hd]
    simp only [jtruthyOpt, hdt, if_true, Bool.false_and, if_false, Option.getD_some]
    simp [isDeltaEvt, isFinalEvt]
  · intro hfin hr hrn
    rw [hfin, hr]
    constructor
    · cases hdelta : jtruthyOpt (alookup pkvs "delta") <;>
        cases husage : jNotNone (jget (Json.obj kvs) "token_usage")
            || jNotNone (jget (Json.obj kvs) "time_usage") <;>
          simp [hrn, isFinalEvt, isDeltaEvt]
    · intro hdelta
      rw [hdelta]
      cases husage : jNotNone (jget (Json.obj kvs) "token_usage")
          || jNotNone (jget (Json.obj kvs) "time_usage") <;>
        simp [hrn, isDeltaEvt]

/-- C8 witness: the two chunk scenarios of the specification. -/
theorem c8_amended_witness :
    ((dispatchMsg (Json.obj [("message_type", Json.str "chunk"), ("seq", Json.num 3),
        ("is_final", Json.bool false),
        ("payload", Json.obj [("delta", Json.str "hi")])])).filter isDeltaEvt
      = [RecvEvent.deltaChunk
          (jget (Json.obj [("message_type", Json.str "chunk"), ("seq", Json.num 3),
            ("is_final", Json.bool false),
            ("payload", Json.obj [("delta", Json.str "hi")])]) "request_id")
          (jget (Json.obj [("message_type", Json.str "chunk"), ("seq", Json.num 3),
            ("is_final", Json.bool false),
            ("payload", Json.obj [("delta", Json.str "hi")])]) "seq")
          false (Json.str "hi")] ∧
     (dispatchMsg (Json.obj [("message_type", Json.str "chunk"), ("seq", Json.num 3),
        ("is_final", Json.bool false),
        ("payload", Json.obj [("delta", Json.str "hi")])])).filter isFinalEvt = []) ∧
    ((dispatchMsg (Json.obj [("message_type", Json.str "chunk"), ("seq", Json.num 9),
        ("is_final", Json.bool true),
        ("payload", Json.obj [("emotion_result",
          Json.obj [("label", Json.str "calm")])])])).filter isFinalEvt
      = [RecvEvent.emotionResult (Json.obj [("label", Json.str "calm")])] ∧
     (dispatchMsg (Json.obj [("message_type", Json.str "chunk"), ("seq", Json.num 9),
        ("is_final", Json.bool true),
        ("payload", Json.obj [("emotion_result",
          Json.obj [("label", Json.str "calm")])])])).filter isDeltaEvt = []) := by
  constructor
  · exact (c8_amended
      [("message_type", Json.str "chunk"), ("seq", Json.num 3),
        ("is_final", Json.bool false), ("payload", Json.obj [("delta", Json.str "hi")])]
      [("delta", Json.str "hi")] (Json.str "hi") Json.null
      (by rfl) (by rfl) (by rfl)).1 (by rfl) (by rfl) (by rfl)
  · have h := (c8_amended
      [("message_type", Json.str "chunk"), ("seq", Json.num 9),
        ("is_final", Json.bool true),
        ("payload", Json.obj [("emotion_result", Json.obj [("label", Json.str "calm")])])]
      [("emotion_result", Json.obj [("label", Json.str "calm")])] Json.null
      (Json.obj [("label", Json.str "calm")])
      (by rfl) (by rfl) (by rfl)).2 (by rfl) (by rfl) (by rfl)
    exact ⟨h.1, h.2 (by rfl)⟩
